import Mathlib

/-!
# Verification of the pysdf SDF-to-URDF flattener (`pysdf/parse.py`)

This file shallowly embeds the core of `pysdf/parse.py`: the document model
(`Model` / `Link` / `Joint` / `Axis`), the scope resolver (`get_link`,
`get_joint`), the tree builder (`build_tree`, `find_root_link`, `get_parent`),
the pose propagator (`calculate_absolute_pose`) and the URDF emission of
links and joints (`add_urdf_elements`, `pose2origin`, `rounded`).

Conventions of the embedding:
* 4x4 homogeneous transforms (numpy arrays in the source) are matrices over ℚ;
  the external `tf.transformations` helpers that are exact arithmetic
  (`concatenate_matrices`, `identity_matrix`, `inverse_matrix`,
  `translation_from_matrix`) are defined over ℚ, while the transcendental
  `euler_from_matrix` is passed as an explicit function parameter, since the
  transform library is an external collaborator of the program.
* Python object mutation is replaced by explicit state passing: functions that
  mutate (`build_tree`, `calculate_absolute_pose`) return the updated value.
  Back-references (`tree_parent_joint`, `tree_parent_link`, ...) hold a copy
  of the referenced entity as resolved at assignment time.
* Python `None`-crashes (`AttributeError`, `IndexError`) are modelled with
  `Except` / dedicated error constructors, and the unbounded `while True`
  loop of `find_root_link` and the `get_parent` recursion through
  `parent_model` take an explicit fuel argument.
-/

/-- Homogeneous 4x4 transform, as used throughout `parse.py` (numpy arrays). -/
abbrev Transform := Matrix (Fin 4) (Fin 4) ℚ

/-- Embedding of `tf.transformations.identity_matrix()`. -/
def identity_matrix : Transform := 1

/-- Embedding of `tf.transformations.concatenate_matrices(a, b)`. -/
def concatenate_matrices (a b : Transform) : Transform := a * b

/-- Embedding of `tf.transformations.concatenate_matrices(a, b, c)`
(left-associated matrix product, as numpy reduces it). -/
def concatenate_matrices3 (a b c : Transform) : Transform := a * b * c

/-- Embedding of `tf.transformations.inverse_matrix(m)`; over ℚ this is the
adjugate formula for the inverse (definitionally `m⁻¹` in Mathlib). -/
def inverse_matrix (m : Transform) : Transform := m.det⁻¹ • m.adjugate

/-- Embedding of `tf.transformations.translation_from_matrix(m)`: the
column `m[:3, 3]`. -/
def translation_from_matrix (m : Transform) (i : Fin 3) : ℚ := m i.castSucc 3

/-- Python `round(x)` (no digits): round half to even (banker's rounding). -/
def pyround_int (q : ℚ) : ℤ :=
  let f : ℤ := ⌊q⌋
  let r : ℚ := q - f
  if r < 1/2 then f
  else if 1/2 < r then f + 1
  else if Even f then f else f + 1

/-- Python `round(val, 6)`: round to 6 decimal places, half to even. -/
def pyround6 (q : ℚ) : ℚ := (pyround_int (q * 1000000) : ℚ) / 1000000

/-- Python `int(q)`: truncation toward zero. -/
def pyint (q : ℚ) : ℤ := if 0 ≤ q then ⌊q⌋ else ⌈q⌉

/-- The function `rounded(val)` from `parse.py` (line 37):
`int(round(val,6) * 1e5) / 1.0e5`, with exact rational arithmetic standing in
for the Python floats. -/
def rounded (q : ℚ) : ℚ := (pyint (pyround6 q * 100000) : ℚ) / 100000

/-- State of `Axis` (`parse.py` line 472).  `xyz` keeps the raw `<xyz>` tag
text (the source wraps it in `numpy.array`, unparsed). -/
structure Axis where
  xyz : Option String
  lower_limit : ℚ
  upper_limit : ℚ
  effort_limit : ℚ
  velocity_limit : ℚ
deriving Repr, DecidableEq

/-- Field defaults of `Axis.__init__`. -/
def Axis.init : Axis :=
  { xyz := none, lower_limit := 0, upper_limit := 0,
    effort_limit := 0, velocity_limit := 0 }

/- `Link` and `Joint` (`parse.py` lines 364, 414).  The `tree_*`
back-references installed by `Model.build_tree` hold a copy of the referenced
object as it was when the reference was assigned; `parent_model` is the
identity of the owning `Model` instance (Python compares these with object
identity). -/
mutual

inductive Link where
  | mk (name : String) (pose : Transform) (pose_world : Transform)
       (parent_model : Nat)
       (tree_parent_joint : Option Joint) (tree_child_joints : List Joint) : Link

inductive Joint where
  | mk (name : String) (pose : Transform) (pose_world : Transform)
       (parent_model : Nat)
       (type : String) (parent : String) (child : String) (axis : Axis)
       (tree_parent_link : Option Link) (tree_child_link : Option Link) : Joint

end

def Link.name : Link → String
  | .mk n _ _ _ _ _ => n

def Link.pose : Link → Transform
  | .mk _ p _ _ _ _ => p

def Link.pose_world : Link → Transform
  | .mk _ _ pw _ _ _ => pw

def Link.parent_model : Link → Nat
  | .mk _ _ _ pm _ _ => pm

def Link.tree_parent_joint : Link → Option Joint
  | .mk _ _ _ _ tpj _ => tpj

def Link.tree_child_joints : Link → List Joint
  | .mk _ _ _ _ _ tcj => tcj

def Joint.name : Joint → String
  | .mk n _ _ _ _ _ _ _ _ _ => n

def Joint.pose : Joint → Transform
  | .mk _ p _ _ _ _ _ _ _ _ => p

def Joint.pose_world : Joint → Transform
  | .mk _ _ pw _ _ _ _ _ _ _ => pw

def Joint.parent_model : Joint → Nat
  | .mk _ _ _ pm _ _ _ _ _ _ => pm

def Joint.type : Joint → String
  | .mk _ _ _ _ t _ _ _ _ _ => t

def Joint.parent : Joint → String
  | .mk _ _ _ _ _ p _ _ _ _ => p

def Joint.child : Joint → String
  | .mk _ _ _ _ _ _ c _ _ _ => c

def Joint.axis : Joint → Axis
  | .mk _ _ _ _ _ _ _ a _ _ => a

def Joint.tree_parent_link : Joint → Option Link
  | .mk _ _ _ _ _ _ _ _ tpl _ => tpl

def Joint.tree_child_link : Joint → Option Link
  | .mk _ _ _ _ _ _ _ _ _ tcl => tcl

/- `Model` (`parse.py` line 185).  `submodels` is a dedicated list type so
that the model-tree recursions of the source are structural.  `id` stands for
the object identity of the Python `Model` instance (`parent_model` fields of
links and joints refer to it). -/
mutual

inductive Model where
  | mk (name : String) (pose : Transform) (pose_world : Transform) (id : Nat)
       (links : List Link) (joints : List Joint) (submodels : ModelList)
       (root_link : Option Link) : Model

inductive ModelList where
  | nil : ModelList
  | cons (m : Model) (tail : ModelList) : ModelList

end

def Model.name : Model → String
  | .mk n _ _ _ _ _ _ _ => n

def Model.pose : Model → Transform
  | .mk _ p _ _ _ _ _ _ => p

def Model.pose_world : Model → Transform
  | .mk _ _ pw _ _ _ _ _ => pw

def Model.id : Model → Nat
  | .mk _ _ _ i _ _ _ _ => i

def Model.links : Model → List Link
  | .mk _ _ _ _ ls _ _ _ => ls

def Model.joints : Model → List Joint
  | .mk _ _ _ _ _ js _ _ => js

def Model.submodels : Model → ModelList
  | .mk _ _ _ _ _ _ subs _ => subs

def Model.root_link : Model → Option Link
  | .mk _ _ _ _ _ _ _ rl => rl

/-- Membership of a model in a `ModelList`. -/
def ModelList.Mem (m : Model) : ModelList → Prop
  | .nil => False
  | .cons s tail => m = s ∨ ModelList.Mem m tail

/-- Computation `full_prefix = prefix + '::' if prefix else ''` (used by
`get_link`, `get_joint`, `get_parent`, `add_urdf_elements`). -/
def fullPrefix (pfx : String) : String :=
  if pfx == "" then "" else pfx ++ "::"

/- `Model.get_link` (`parse.py` line 291): first matching link of the model
under `prefix::name`, else first submodel result, recursing with the prefix
extended by the submodel's name. -/
mutual

def Model.get_link : Model → String → String → Option Link
  | .mk _ _ _ _ links _ subs _, requested_linkname, pfx =>
    match links.find? (fun l => fullPrefix pfx ++ l.name == requested_linkname) with
    | some l => some l
    | none => getLinkInSubmodels subs requested_linkname pfx

def getLinkInSubmodels : ModelList → String → String → Option Link
  | .nil, _, _ => none
  | .cons s tail, requested_linkname, pfx =>
    match s.get_link requested_linkname
        (if pfx == "" then s.name else pfx ++ "::" ++ s.name) with
    | some res => some res
    | none => getLinkInSubmodels tail requested_linkname pfx

end

/- `Model.get_joint` (`parse.py` line 279).  Note: the recursive call passes
`submodel.name` alone as the new prefix, discarding the accumulated prefix
(unlike `get_link`). -/
mutual

def Model.get_joint : Model → String → String → Option Joint
  | .mk _ _ _ _ _ joints subs _, requested_jointname, pfx =>
    match joints.find? (fun j => fullPrefix pfx ++ j.name == requested_jointname) with
    | some j => some j
    | none => getJointInSubmodels subs requested_jointname

def getJointInSubmodels : ModelList → String → Option Joint
  | .nil, _ => none
  | .cons s tail, requested_jointname =>
    match s.get_joint requested_jointname s.name with
    | some res => some res
    | none => getJointInSubmodels tail requested_jointname

end

-- Sanity check: the resolver computes by kernel reduction on a concrete document.
example :
    (Model.get_link
      (.mk "A" identity_matrix identity_matrix 0 [] []
        (.cons (.mk "B" identity_matrix identity_matrix 1
          [.mk "wheel" identity_matrix identity_matrix 1 none []] [] .nil none)
          .nil) none)
      "B::wheel" "").isSome = true := by decide

/-! ## Concrete documents used by the scoped-resolution claims -/

/-- Link `wheel` owned by submodel `B` (scoped-resolution scenario). -/
def wheelLink : Link := .mk "wheel" identity_matrix identity_matrix 11 none []

/-- Submodel `B` containing link `wheel`. -/
def modelB8 : Model := .mk "B" identity_matrix identity_matrix 11 [wheelLink] [] .nil none

/-- Top-level model `A` containing submodel `B`. -/
def modelA8 : Model :=
  .mk "A" identity_matrix identity_matrix 10 [] [] (.cons modelB8 .nil) none

/-- Link `w` owned by the depth-2 submodel `C`. -/
def linkWC : Link := .mk "w" identity_matrix identity_matrix 3 none []

/-- Joint `j` owned by the depth-2 submodel `C`. -/
def jointJC : Joint :=
  .mk "j" identity_matrix identity_matrix 3 "fixed" "w" "w" Axis.init none none

/-- Submodel `C` (nested at depth 2) with link `w` and joint `j`. -/
def modelC6 : Model := .mk "C" identity_matrix identity_matrix 3 [linkWC] [jointJC] .nil none

/-- Joint `jb` owned by submodel `B` (nested at depth 1). -/
def jointJB : Joint :=
  .mk "jb" identity_matrix identity_matrix 2 "fixed" "w" "w" Axis.init none none

/-- Submodel `B` containing joint `jb` and submodel `C`. -/
def modelB6 : Model :=
  .mk "B" identity_matrix identity_matrix 2 [] [jointJB] (.cons modelC6 .nil) none

/-- Top-level model `A` containing `B` containing `C`. -/
def modelA6 : Model :=
  .mk "A" identity_matrix identity_matrix 1 [] [] (.cons modelB6 .nil) none

/-- C8: for a model `A` containing submodel `B` containing link `wheel`,
`get_link A "B::wheel" ""` returns the link while `get_link A "wheel" ""`
returns nothing: an unqualified name never matches a link inside a submodel
(no implicit flattening at resolution time). -/
theorem c8_scoped_link_resolution :
    Model.get_link modelA8 "B::wheel" "" = some wheelLink ∧
    Model.get_link modelA8 "wheel" "" = none := by
  exact ⟨rfl, rfl⟩

/-! ## Claim C6: joint resolution versus link resolution -/

/-- Number of `':'` characters in a string (a `prefix::name` qualified by one
level contains two of them). -/
def countColons (s : String) : Nat := s.data.count ':'

/- Well-formedness of authored names: no joint name and no model name contains
a colon (used to reason about `::`-qualified lookups). -/
mutual

def Model.namesColonFree : Model → Bool
  | .mk _ _ _ _ _ joints subs _ =>
    joints.all (fun j => decide (':' ∉ j.name.data)) && ModelList.namesColonFree subs

def ModelList.namesColonFree : ModelList → Bool
  | .nil => true
  | .cons s tail =>
    decide (':' ∉ s.name.data) && Model.namesColonFree s && ModelList.namesColonFree tail

end

theorem countColons_append (a b : String) :
    countColons (a ++ b) = countColons a + countColons b := by
  simp [countColons, String.data_append, List.count_append]

theorem countColons_fullPrefix (p : String) :
    countColons (fullPrefix p) ≤ countColons p + 2 := by
  unfold fullPrefix
  split
  · simp [countColons]
  · rw [countColons_append]
    have : countColons "::" = 2 := by decide
    omega

/- The resolution bound: a successful `get_joint` lookup consumes at most one
level of `::` qualification beyond the caller's prefix, because the submodel
recursion resets the prefix to the submodel's bare name. -/
mutual

theorem getJoint_colon_bound : ∀ (m : Model) (q p : String) (j : Joint),
    Model.namesColonFree m = true → ':' ∉ p.data →
    Model.get_joint m q p = some j → countColons q ≤ countColons p + 2
  | .mk _ _ _ _ _ joints subs _, q, p, j, hm, _, h => by
    rw [Model.get_joint] at h
    rw [Model.namesColonFree, Bool.and_eq_true] at hm
    cases hfind : joints.find? (fun j => fullPrefix p ++ j.name == q) with
    | some j0 =>
      rw [hfind] at h
      have hq : fullPrefix p ++ j0.name = q := by
        have := List.find?_some hfind
        exact eq_of_beq this
      have hmem : j0 ∈ joints := List.mem_of_find?_eq_some hfind
      have hfree : ':' ∉ j0.name.data := by
        have := (List.all_eq_true.mp hm.1) j0 hmem
        exact of_decide_eq_true this
      have hname : countColons j0.name = 0 := by
        simpa [countColons, List.count_eq_zero] using hfree
      rw [← hq, countColons_append, hname]
      have := countColons_fullPrefix p
      omega
    | none =>
      rw [hfind] at h
      have := getJointInSubmodels_colon_bound subs q j hm.2 h
      omega

theorem getJointInSubmodels_colon_bound : ∀ (subs : ModelList) (q : String) (j : Joint),
    ModelList.namesColonFree subs = true →
    getJointInSubmodels subs q = some j → countColons q ≤ 2
  | .nil, q, j, _, h => by
    rw [getJointInSubmodels] at h
    exact absurd h (by simp)
  | .cons s tail, q, j, hok, h => by
    rw [getJointInSubmodels] at h
    rw [ModelList.namesColonFree, Bool.and_eq_true, Bool.and_eq_true] at hok
    cases hs : Model.get_joint s q s.name with
    | some res =>
      rw [hs] at h
      simp only [Option.some.injEq] at h
      subst h
      have hfree : ':' ∉ s.name.data := of_decide_eq_true hok.1.1
      have hbound := getJoint_colon_bound s q s.name res hok.1.2 hfree hs
      have hname : countColons s.name = 0 := by
        simpa [countColons, List.count_eq_zero] using hfree
      omega
    | none =>
      rw [hs] at h
      exact getJointInSubmodels_colon_bound tail q j hok.2 h

end

/-- C6 counterexample: in `A` containing `B` containing `C`, the joint `j`
nested at depth 2 is NOT found by `get_joint` under its fully `::`-qualified
name `B::C::j` (it is found under `C::j` instead), although `get_link` does
find the identically nested link `w` under `B::C::w`: joint resolution is not
the identical algorithm applied to joints. -/
theorem c6_counterexample :
    Model.get_joint modelA6 "B::C::j" "" = none ∧
    Model.get_joint modelA6 "C::j" "" = some jointJC ∧
    Model.get_link modelA6 "B::C::w" "" = some linkWC := ⟨rfl, rfl, rfl⟩

/-- C6 (amended): `get_joint` checks the model's own joints under
`prefix::name` like `get_link`, but recurses into each submodel passing the
submodel's bare name as the whole new prefix, discarding the accumulated
prefix.  Hence (first conjunct) when authored joint and model names contain
no colon, any name that `get_joint` resolves under prefix `p` carries at most
one `::` qualifier beyond `p` — so a fully qualified name with two or more
`::` separators never resolves from the top; a joint at depth 1 still
resolves by its fully qualified name (`B::jb`), a joint at depth 2 resolves
only by `innermost-model::name` (`C::j`, not `B::C::j`), while `get_link`
resolves the identically nested link by the full name (`B::C::w`). -/
theorem c6_amended_joint_resolution :
    (∀ (m : Model) (q p : String) (j : Joint),
        Model.namesColonFree m = true → ':' ∉ p.data →
        Model.get_joint m q p = some j → countColons q ≤ countColons p + 2) ∧
    Model.get_joint modelA6 "B::jb" "" = some jointJB ∧
    Model.get_joint modelA6 "C::j" "" = some jointJC ∧
    Model.get_joint modelA6 "B::C::j" "" = none ∧
    Model.get_link modelA6 "B::C::w" "" = some linkWC :=
  ⟨getJoint_colon_bound, rfl, rfl, rfl, rfl⟩

/-! ## URDF emission: `pose2origin` and `add_urdf_elements` -/

/-- Content of the `<origin xyz rpy>` element written by `pose2origin`
(`parse.py` line 101): translation and roll-pitch-yaw, each component
quantized by `rounded`.  (The textual serialization `array2string` is
presentation and not modelled.) -/
structure Origin where
  xyz : Fin 3 → ℚ
  rpy : Fin 3 → ℚ

/-- The function `pose2origin(node, pose)` (`parse.py` line 101):
`homogeneous2translation_rpy` decomposes the pose, and each component is
passed through `rounded`.  `euler_from_matrix` is the transcendental rotation
decomposition of the external transform library, taken as a parameter. -/
def pose2origin (euler_from_matrix : Transform → Fin 3 → ℚ) (pose : Transform) :
    Origin :=
  { xyz := fun i => rounded (translation_from_matrix pose i),
    rpy := fun i => rounded (euler_from_matrix pose i) }

/-- Output `<link>` element written by `Link.add_urdf_elements`. -/
structure UrdfLink where
  name : String
  origin : Origin

/-- Output `<joint>` element written by `Joint.add_urdf_elements`. -/
structure UrdfJoint where
  name : String
  parent : String
  child : String
  origin : Origin
  type : String
  axis : Axis

/-- The method `Link.add_urdf_elements` (`parse.py` line 401): the emitted
origin is relative to the tree parent joint when that joint belongs to the
same owning model instance, the identity when the joint crosses an include
boundary, and the world pose itself for the root link. -/
def Link.add_urdf_elements (euler_from_matrix : Transform → Fin 3 → ℚ)
    (l : Link) (pfx : String) : UrdfLink :=
  { name := fullPrefix pfx ++ l.name,
    origin :=
      match l.tree_parent_joint with
      | some tpj =>
        if tpj.parent_model == l.parent_model then
          pose2origin euler_from_matrix
            (concatenate_matrices (inverse_matrix tpj.pose_world) l.pose_world)
        else
          pose2origin euler_from_matrix identity_matrix
      | none => pose2origin euler_from_matrix l.pose_world }

/-- The method `Joint.add_urdf_elements` (`parse.py` line 454).
`self.tree_parent_link.parent_model` is read unconditionally, so an absent
`tree_parent_link` is the Python `AttributeError` (modelled as `.error`); in
the cross-include branch the same holds for `tree_child_link`.  A `revolute`
joint whose axis has `lower_limit == 0 and upper_limit == 0` is emitted with
type `fixed`; every other joint keeps its authored type. -/
def Joint.add_urdf_elements (euler_from_matrix : Transform → Fin 3 → ℚ)
    (j : Joint) (pfx : String) : Except String UrdfJoint :=
  (match j.tree_parent_link with
   | none => Except.error "AttributeError: tree_parent_link is None"
   | some tpl =>
     if tpl.parent_model == j.parent_model then
       Except.ok (pose2origin euler_from_matrix
         (concatenate_matrices (inverse_matrix tpl.pose_world) j.pose_world))
     else
       match j.tree_child_link with
       | none => Except.error "AttributeError: tree_child_link is None"
       | some tcl =>
         Except.ok (pose2origin euler_from_matrix
           (concatenate_matrices (inverse_matrix tpl.pose_world) tcl.pose_world))).map
  (fun origin =>
    { name := fullPrefix pfx ++ j.name,
      parent := fullPrefix pfx ++ j.parent,
      child := fullPrefix pfx ++ j.child,
      origin := origin,
      type :=
        if j.type == "revolute" && j.axis.lower_limit == 0 && j.axis.upper_limit == 0
        then "fixed" else j.type,
      axis := j.axis })

/-- C2: for every link emitted by the flattener, the emitted origin is
`inverse(tree_parent_joint.pose_world) ∘ Link.pose_world` when the tree
parent joint belongs to the same owning model instance, the identity
transform when the joint belongs to a different model instance (crosses an
include boundary), and `Link.pose_world` itself when the link has no tree
parent joint (the root). -/
theorem c2_link_origin (euler_from_matrix : Transform → Fin 3 → ℚ)
    (l : Link) (pfx : String) :
    (∀ tpj, l.tree_parent_joint = some tpj → tpj.parent_model = l.parent_model →
      (l.add_urdf_elements euler_from_matrix pfx).origin =
        pose2origin euler_from_matrix
          (concatenate_matrices (inverse_matrix tpj.pose_world) l.pose_world)) ∧
    (∀ tpj, l.tree_parent_joint = some tpj → tpj.parent_model ≠ l.parent_model →
      (l.add_urdf_elements euler_from_matrix pfx).origin =
        pose2origin euler_from_matrix identity_matrix) ∧
    (l.tree_parent_joint = none →
      (l.add_urdf_elements euler_from_matrix pfx).origin =
        pose2origin euler_from_matrix l.pose_world) := by
  refine ⟨fun tpj htpj heq => ?_, fun tpj htpj hne => ?_, fun hnone => ?_⟩
  · simp [Link.add_urdf_elements, htpj, heq]
  · simp [Link.add_urdf_elements, htpj, hne]
  · simp [Link.add_urdf_elements, hnone]

/-- C3: for every joint emitted by the flattener, the emitted origin is
`inverse(tree_parent_link.pose_world) ∘ Joint.pose_world` when the tree
parent link belongs to the same owning model instance as the joint, and
`inverse(tree_parent_link.pose_world) ∘ tree_child_link.pose_world` (a
different formula) when the parent link belongs to a different model
instance. -/
theorem c3_joint_origin (euler_from_matrix : Transform → Fin 3 → ℚ)
    (j : Joint) (pfx : String) :
    (∀ tpl, j.tree_parent_link = some tpl → tpl.parent_model = j.parent_model →
      (j.add_urdf_elements euler_from_matrix pfx).map UrdfJoint.origin =
        Except.ok (pose2origin euler_from_matrix
          (concatenate_matrices (inverse_matrix tpl.pose_world) j.pose_world))) ∧
    (∀ tpl tcl, j.tree_parent_link = some tpl → j.tree_child_link = some tcl →
      tpl.parent_model ≠ j.parent_model →
      (j.add_urdf_elements euler_from_matrix pfx).map UrdfJoint.origin =
        Except.ok (pose2origin euler_from_matrix
          (concatenate_matrices (inverse_matrix tpl.pose_world) tcl.pose_world))) := by
  refine ⟨fun tpl htpl heq => ?_, fun tpl tcl htpl htcl hne => ?_⟩
  · simp [Joint.add_urdf_elements, htpl, heq, Except.map]
  · simp [Joint.add_urdf_elements, htpl, htcl, hne, Except.map]

/-! ## Claim C4: joint type demotion -/

/-- Parent link for the demotion scenario (same owning model instance 5). -/
def demoParentLink : Link := .mk "root_link" identity_matrix identity_matrix 5 none []

/-- Child link for the demotion scenario. -/
def demoChildLink : Link := .mk "wheel" identity_matrix identity_matrix 5 none []

/-- Joint authored `revolute` with `lower_limit = 0`, `upper_limit = 0`. -/
def axleJointZero : Joint :=
  .mk "axle" identity_matrix identity_matrix 5 "revolute" "root_link" "wheel"
    { xyz := none, lower_limit := 0, upper_limit := 0,
      effort_limit := 0, velocity_limit := 0 }
    (some demoParentLink) (some demoChildLink)

/-- The same joint authored with `lower_limit = -1`, `upper_limit = 1`. -/
def axleJointRange : Joint :=
  .mk "axle" identity_matrix identity_matrix 5 "revolute" "root_link" "wheel"
    { xyz := none, lower_limit := -1, upper_limit := 1,
      effort_limit := 0, velocity_limit := 0 }
    (some demoParentLink) (some demoChildLink)

/-- C4: a `revolute` joint whose axis has `lower_limit = 0` and
`upper_limit = 0` is emitted with type `fixed`; the same joint with limits
`-1`/`1` is emitted as `revolute`; and every joint of any other authored type
is emitted with its authored type unchanged. -/
theorem c4_joint_type_demotion (euler_from_matrix : Transform → Fin 3 → ℚ)
    (pfx : String) :
    (axleJointZero.add_urdf_elements euler_from_matrix pfx).map UrdfJoint.type =
      Except.ok "fixed" ∧
    (axleJointRange.add_urdf_elements euler_from_matrix pfx).map UrdfJoint.type =
      Except.ok "revolute" ∧
    (∀ (j : Joint) (uj : UrdfJoint),
      j.add_urdf_elements euler_from_matrix pfx = Except.ok uj →
      j.type ≠ "revolute" → uj.type = j.type) := by
  refine ⟨rfl, rfl, fun j uj h hty => ?_⟩
  cases htpl : j.tree_parent_link with
  | none => simp [Joint.add_urdf_elements, htpl, Except.map] at h
  | some tpl =>
    by_cases heq : tpl.parent_model = j.parent_model
    · simp [Joint.add_urdf_elements, htpl, heq, Except.map] at h
      subst h
      simp [hty]
    · cases htcl : j.tree_child_link with
      | none => simp [Joint.add_urdf_elements, htpl, htcl, heq, Except.map] at h
      | some tcl =>
        simp [Joint.add_urdf_elements, htpl, htcl, heq, Except.map] at h
        subst h
        simp [hty]

/-! ## Claim C10: quantization of emitted origins -/

theorem link_origin_is_pose2origin (euler_from_matrix : Transform → Fin 3 → ℚ)
    (l : Link) (pfx : String) :
    ∃ p : Transform,
      (l.add_urdf_elements euler_from_matrix pfx).origin =
        pose2origin euler_from_matrix p := by
  cases hl : l.tree_parent_joint with
  | none => exact ⟨l.pose_world, by simp [Link.add_urdf_elements, hl]⟩
  | some tpj =>
    by_cases heq : tpj.parent_model = l.parent_model
    · exact ⟨concatenate_matrices (inverse_matrix tpj.pose_world) l.pose_world,
        by simp [Link.add_urdf_elements, hl, heq]⟩
    · exact ⟨identity_matrix, by simp [Link.add_urdf_elements, hl, heq]⟩

theorem joint_origin_is_pose2origin (euler_from_matrix : Transform → Fin 3 → ℚ)
    (j : Joint) (pfx : String) (uj : UrdfJoint)
    (h : j.add_urdf_elements euler_from_matrix pfx = Except.ok uj) :
    ∃ p : Transform, uj.origin = pose2origin euler_from_matrix p := by
  cases htpl : j.tree_parent_link with
  | none => simp [Joint.add_urdf_elements, htpl, Except.map] at h
  | some tpl =>
    by_cases heq : tpl.parent_model = j.parent_model
    · simp [Joint.add_urdf_elements, htpl, heq, Except.map] at h
      subst h
      exact ⟨concatenate_matrices (inverse_matrix tpl.pose_world) j.pose_world, rfl⟩
    · cases htcl : j.tree_child_link with
      | none => simp [Joint.add_urdf_elements, htpl, htcl, heq, Except.map] at h
      | some tcl =>
        simp [Joint.add_urdf_elements, htpl, htcl, heq, Except.map] at h
        subst h
        exact ⟨concatenate_matrices (inverse_matrix tpl.pose_world) tcl.pose_world, rfl⟩

/-- C10: every origin the emitter writes through `pose2origin` has each
translation and rpy component quantized by
`rounded : v ↦ int(round(v, 6) * 1e5) / 1e5`, so every emitted origin
coordinate is an exact integer multiple of `10^(-5)` (the integer produced by
truncation toward zero after rounding to 6 decimal places), for links and for
successfully emitted joints alike.  Floats are modelled by exact rationals. -/
theorem c10_emitted_origins_quantized (euler_from_matrix : Transform → Fin 3 → ℚ)
    (pfx : String) (i : Fin 3) :
    (∀ q : ℚ, rounded q = (pyint (pyround6 q * 100000) : ℚ) / 100000) ∧
    (∀ l : Link,
      (∃ k : ℤ, (l.add_urdf_elements euler_from_matrix pfx).origin.xyz i =
        (k : ℚ) / 100000) ∧
      (∃ k : ℤ, (l.add_urdf_elements euler_from_matrix pfx).origin.rpy i =
        (k : ℚ) / 100000)) ∧
    (∀ (j : Joint) (uj : UrdfJoint),
      j.add_urdf_elements euler_from_matrix pfx = Except.ok uj →
      (∃ k : ℤ, uj.origin.xyz i = (k : ℚ) / 100000) ∧
      (∃ k : ℤ, uj.origin.rpy i = (k : ℚ) / 100000)) := by
  refine ⟨fun _ => rfl, fun l => ?_, fun j uj h => ?_⟩
  · obtain ⟨p, hp⟩ := link_origin_is_pose2origin euler_from_matrix l pfx
    rw [hp]
    exact ⟨⟨pyint (pyround6 (translation_from_matrix p i) * 100000), rfl⟩,
      ⟨pyint (pyround6 (euler_from_matrix p i) * 100000), rfl⟩⟩
  · obtain ⟨p, hp⟩ := joint_origin_is_pose2origin euler_from_matrix j pfx uj h
    rw [hp]
    exact ⟨⟨pyint (pyround6 (translation_from_matrix p i) * 100000), rfl⟩,
      ⟨pyint (pyround6 (euler_from_matrix p i) * 100000), rfl⟩⟩

/-! ## Claim C1: the pose propagator `calculate_absolute_pose` -/

def Link.set_pose_world : Link → Transform → Link
  | .mk n p _ pm tpj tcj, pw => .mk n p pw pm tpj tcj

def Joint.set_pose_world : Joint → Transform → Joint
  | .mk n p _ pm t pa c a tpl tcl, pw => .mk n p pw pm t pa c a tpl tcl

/-- Loop `for link in self.links: link.pose_world =
concatenate_matrices(worldMVmodel, link.pose)` (`parse.py` line 316). -/
def calcLinks (worldMVmodel : Transform) (links : List Link) : List Link :=
  links.map (fun l => l.set_pose_world (concatenate_matrices worldMVmodel l.pose))

/-- Loop `for joint in self.joints: joint.pose_world =
concatenate_matrices(worldMVmodel, joint.tree_child_link.pose, joint.pose)`
(`parse.py` line 318); an absent `tree_child_link` is the `AttributeError`. -/
def calcJoints (worldMVmodel : Transform) : List Joint → Except String (List Joint)
  | [] => .ok []
  | j :: rest =>
    match j.tree_child_link with
    | none => .error "AttributeError: tree_child_link is None"
    | some cl =>
      match calcJoints worldMVmodel rest with
      | .error e => .error e
      | .ok rest' =>
        .ok (j.set_pose_world (concatenate_matrices3 worldMVmodel cl.pose j.pose) :: rest')

/- `Model.calculate_absolute_pose` (`parse.py` line 313): depth-first,
top-down, `worldMVmodel = worldMVparent ∘ self.pose` set as the model's world
pose, links and joints relative to it, submodels recursing with
`worldMVmodel` as the new ambient transform. -/
mutual

def Model.calculate_absolute_pose : Model → Transform → Except String Model
  | .mk n p _ i links joints subs rl, worldMVparent =>
    let worldMVmodel := concatenate_matrices worldMVparent p
    match calcJoints worldMVmodel joints with
    | .error e => .error e
    | .ok joints' =>
      match calcSubmodels subs worldMVmodel with
      | .error e => .error e
      | .ok subs' =>
        .ok (.mk n p worldMVmodel i (calcLinks worldMVmodel links) joints' subs' rl)

def calcSubmodels : ModelList → Transform → Except String ModelList
  | .nil, _ => .ok .nil
  | .cons s tail, worldMVmodel =>
    match s.calculate_absolute_pose worldMVmodel with
    | .error e => .error e
    | .ok s' =>
      match calcSubmodels tail worldMVmodel with
      | .error e => .error e
      | .ok tail' => .ok (.cons s' tail')

end

/- Specification predicate for the pose propagator, written from the spec's
words (§4.3): `Model.pose_world = ambient ∘ Model.pose_local`; for each link
owned directly by the model, `Link.pose_world = Model.pose_world ∘
Link.pose_local`; for each joint owned directly by the model,
`Joint.pose_world = Model.pose_world ∘ Joint.tree_child_link.pose_local ∘
Joint.pose_local`; submodels recursively, with the ambient transform equal to
the enclosing model's world pose. -/
mutual

def PoseSpec : Transform → Model → Model → Prop
  | ambient, .mk _ p _ _ links joints subs _, .mk _ _ pw' _ links' joints' subs' _ =>
    pw' = concatenate_matrices ambient p ∧
    List.Forall₂ (fun l l' =>
      Link.pose_world l' = concatenate_matrices pw' (Link.pose l)) links links' ∧
    List.Forall₂ (fun j j' =>
      ∃ cl, Joint.tree_child_link j = some cl ∧
        Joint.pose_world j' = concatenate_matrices3 pw' (Link.pose cl) (Joint.pose j))
      joints joints' ∧
    PoseSpecList pw' subs subs'

def PoseSpecList : Transform → ModelList → ModelList → Prop
  | _, .nil, .nil => True
  | ambient, .cons s tail, .cons s' tail' =>
    PoseSpec ambient s s' ∧ PoseSpecList ambient tail tail'
  | _, .nil, .cons _ _ => False
  | _, .cons _ _, .nil => False

end

theorem link_set_pose_world_eq (l : Link) (pw : Transform) :
    (l.set_pose_world pw).pose_world = pw := by
  cases l; rfl

theorem joint_set_pose_world_eq (j : Joint) (pw : Transform) :
    (j.set_pose_world pw).pose_world = pw := by
  cases j; rfl

theorem calcLinks_spec (wm : Transform) (links : List Link) :
    List.Forall₂ (fun l l' =>
      Link.pose_world l' = concatenate_matrices wm (Link.pose l))
      links (calcLinks wm links) := by
  induction links with
  | nil => exact List.Forall₂.nil
  | cons l rest ih =>
    exact List.Forall₂.cons (link_set_pose_world_eq l _) ih

theorem calcJoints_spec (wm : Transform) :
    ∀ (joints joints' : List Joint), calcJoints wm joints = .ok joints' →
    List.Forall₂ (fun j j' =>
      ∃ cl, Joint.tree_child_link j = some cl ∧
        Joint.pose_world j' = concatenate_matrices3 wm (Link.pose cl) (Joint.pose j))
      joints joints' := by
  intro joints
  induction joints with
  | nil =>
    intro joints' h
    rw [calcJoints] at h
    cases h
    exact List.Forall₂.nil
  | cons j rest ih =>
    intro joints' h
    rw [calcJoints] at h
    cases htcl : j.tree_child_link with
    | none => rw [htcl] at h; exact absurd h (by simp)
    | some cl =>
      rw [htcl] at h
      cases hrest : calcJoints wm rest with
      | error e => rw [hrest] at h; exact absurd h (by simp)
      | ok rest' =>
        rw [hrest] at h
        simp only [Except.ok.injEq] at h
        subst h
        exact List.Forall₂.cons
          ⟨cl, htcl, joint_set_pose_world_eq j _⟩ (ih rest' hrest)

/- Correctness of the propagator against the specification predicate, by
mutual induction over the model tree. -/
mutual

theorem calculate_absolute_pose_spec :
    ∀ (m : Model) (ambient : Transform) (m' : Model),
    Model.calculate_absolute_pose m ambient = .ok m' → PoseSpec ambient m m'
  | .mk n p pw i links joints subs rl, ambient, m', h => by
    simp only [Model.calculate_absolute_pose] at h
    cases hj : calcJoints (concatenate_matrices ambient p) joints with
    | error e => rw [hj] at h; exact absurd h (by simp)
    | ok joints' =>
      rw [hj] at h
      cases hs : calcSubmodels subs (concatenate_matrices ambient p) with
      | error e => rw [hs] at h; exact absurd h (by simp)
      | ok subs' =>
        rw [hs] at h
        simp only [Except.ok.injEq] at h
        subst h
        rw [PoseSpec]
        exact ⟨rfl, calcLinks_spec _ links, calcJoints_spec _ joints joints' hj,
          calcSubmodels_spec subs _ subs' hs⟩

theorem calcSubmodels_spec :
    ∀ (subs : ModelList) (ambient : Transform) (subs' : ModelList),
    calcSubmodels subs ambient = .ok subs' → PoseSpecList ambient subs subs'
  | .nil, ambient, subs', h => by
    rw [calcSubmodels] at h
    cases h
    rw [PoseSpecList]
    trivial
  | .cons s tail, ambient, subs', h => by
    rw [calcSubmodels] at h
    cases hcs : Model.calculate_absolute_pose s ambient with
    | error e => rw [hcs] at h; exact absurd h (by simp)
    | ok s' =>
      rw [hcs] at h
      cases hct : calcSubmodels tail ambient with
      | error e => rw [hct] at h; exact absurd h (by simp)
      | ok tail' =>
        rw [hct] at h
        simp only [Except.ok.injEq] at h
        subst h
        rw [PoseSpecList]
        exact ⟨calculate_absolute_pose_spec s ambient s' hcs,
          calcSubmodels_spec tail ambient tail' hct⟩

end

/-- C1: when `calculate_absolute_pose` is run with an ambient transform (the
identity at the document root), then for every model `M` in the tree,
`M.pose_world = ambient ∘ M.pose_local`; every link `L` owned directly by `M`
has `L.pose_world = M.pose_world ∘ L.pose_local`; every joint `J` owned
directly by `M` has `J.pose_world = M.pose_world ∘
J.tree_child_link.pose_local ∘ J.pose_local` (anchored through the child
link's local pose); and submodels are processed with the enclosing model's
world pose as their ambient transform. -/
theorem c1_absolute_pose_correct (ambient : Transform) (m m' : Model)
    (h : m.calculate_absolute_pose ambient = .ok m') : PoseSpec ambient m m' :=
  calculate_absolute_pose_spec m ambient m' h

/-- Concrete document for the C1 witness. -/
def c1WitnessModel : Model :=
  .mk "base" identity_matrix identity_matrix 5 [demoParentLink] [axleJointZero] .nil none

/-- Result of the propagator on `c1WitnessModel`. -/
def c1WitnessResult : Model :=
  .mk "base" identity_matrix (concatenate_matrices identity_matrix identity_matrix) 5
    (calcLinks (concatenate_matrices identity_matrix identity_matrix) [demoParentLink])
    [axleJointZero.set_pose_world
      (concatenate_matrices3 (concatenate_matrices identity_matrix identity_matrix)
        identity_matrix identity_matrix)]
    .nil none

/-- Witness for C1: the propagator succeeds on a concrete one-model document
and the specification predicate holds of its output. -/
theorem c1_absolute_pose_correct_witness :
    Model.calculate_absolute_pose c1WitnessModel identity_matrix =
      Except.ok c1WitnessResult ∧
    PoseSpec identity_matrix c1WitnessModel c1WitnessResult :=
  ⟨rfl, c1_absolute_pose_correct identity_matrix c1WitnessModel c1WitnessResult rfl⟩

/-! ## Claim C9: `Axis.from_tree` and the missing `limit` block -/

/-- Minimal XML element (ElementTree in the source): tag, text, children. -/
inductive XmlNode where
  | mk (tag : String) (text : Option String) (children : List XmlNode)

def XmlNode.tag : XmlNode → String
  | .mk t _ _ => t

def XmlNode.text : XmlNode → Option String
  | .mk _ tx _ => tx

def XmlNode.children : XmlNode → List XmlNode
  | .mk _ _ cs => cs

/-- The function `get_tag(node, tagname, default)` (`parse.py` line 56): the
text of the first child with the given tag, else the default.  (The embedded
default is `none`, matching the call sites that pass no default; note that a
present child whose text is absent yields its `None` text, not the default.) -/
def get_tag (node : XmlNode) (tagname : String) : Option String :=
  match node.children.find? (fun c => c.tag == tagname) with
  | some c => c.text
  | none => none

/-- The function `get_node(node, tagname, default=None)` (`parse.py` line 64). -/
def get_node (node : XmlNode) (tagname : String) : Option XmlNode :=
  node.children.find? (fun c => c.tag == tagname)

/-- Call pattern `float(get_tag(limitnode, tag, 0))` (`parse.py` lines
498-501).  When the tag is absent, `get_tag` returns the integer default `0`
and `float(0)` is `0`.  When the tag is present, `float` receives the
element's text: a string is parsed (Python's `float` on strings is an
external parser, taken as the parameter `pyfloat`), but the `None` text of an
empty element raises `TypeError` — a crash, not a default. -/
def floatTag0 (pyfloat : String → ℚ) (node : XmlNode) (tagname : String) :
    Except String ℚ :=
  match get_node node tagname with
  | some c =>
    match c.text with
    | some s => .ok (pyfloat s)
    | none => .error "TypeError: float() argument must be a string, not NoneType"
  | none => .ok 0

/-- The method `Axis.from_tree` (`parse.py` line 487), as a function from the
initial axis state and the optional `<axis>` node to the new state plus the
list of reported conditions (`print` calls), or the uncaught `TypeError` of
`float(None)`.  A missing `<limit>` child is reported and stops the axis's
resolution (the limit fields keep the values they had); an individual absent
entry inside a present `<limit>` silently defaults to `0`; a present entry
with no text crashes (first of `lower`, `upper`, `effort`, `velocity` wins). -/
def Axis.from_tree (pyfloat : String → ℚ) (a : Axis) (node : Option XmlNode) :
    Except String (Axis × List String) :=
  match node with
  | none => .ok (a, [])
  | some n =>
    if n.tag == "axis" then
      let a1 : Axis := { a with xyz := get_tag n "xyz" }
      match get_node n "limit" with
      | none => .ok (a1, ["limit Tag missing from joint. Aborting."])
      | some limitnode =>
        match floatTag0 pyfloat limitnode "lower" with
        | .error e => .error e
        | .ok lower =>
          match floatTag0 pyfloat limitnode "upper" with
          | .error e => .error e
          | .ok upper =>
            match floatTag0 pyfloat limitnode "effort" with
            | .error e => .error e
            | .ok effort =>
              match floatTag0 pyfloat limitnode "velocity" with
              | .error e => .error e
              | .ok velocity =>
                .ok ({ a1 with
                    lower_limit := lower, upper_limit := upper,
                    effort_limit := effort, velocity_limit := velocity }, [])
    else
      .ok (a, ["Invalid node of type %s instead of axis. Aborting."])

/-- C9: an `<axis>` element without a `<limit>` block is a hard stop for that
axis's resolution — the condition is reported and none of the four limit
fields is assigned (they keep the constructor defaults, reported rather than
silently defaulted); a genuinely absent entry (no `<lower>`, `<upper>`,
`<effort>` or `<velocity>` child) inside a present `<limit>` block silently
defaults to `0` with nothing reported (second conjunct: a bare `<limit/>`
yields all four defaults and an empty report; third conjunct: an absent
`<lower>` alone defaults to `0` silently whenever the axis parses at all).
A present entry whose text is absent is not defaulted: `float(None)` raises
`TypeError` (last conjunct). -/
theorem c9_missing_limit_is_reported (pyfloat : String → ℚ) :
    (∀ n : XmlNode, n.tag = "axis" → get_node n "limit" = none →
      Axis.from_tree pyfloat Axis.init (some n) =
        .ok ({ Axis.init with xyz := get_tag n "xyz" },
         ["limit Tag missing from joint. Aborting."])) ∧
    (∀ n limitnode : XmlNode, n.tag = "axis" → get_node n "limit" = some limitnode →
      get_node limitnode "lower" = none → get_node limitnode "upper" = none →
      get_node limitnode "effort" = none → get_node limitnode "velocity" = none →
      Axis.from_tree pyfloat Axis.init (some n) =
        .ok ({ Axis.init with xyz := get_tag n "xyz" }, [])) ∧
    (∀ n limitnode : XmlNode, n.tag = "axis" → get_node n "limit" = some limitnode →
      get_node limitnode "lower" = none →
      ∀ ax reports, Axis.from_tree pyfloat Axis.init (some n) = .ok (ax, reports) →
      ax.lower_limit = 0 ∧ reports = []) ∧
    (∀ n limitnode c : XmlNode, n.tag = "axis" → get_node n "limit" = some limitnode →
      get_node limitnode "lower" = some c → c.text = none →
      Axis.from_tree pyfloat Axis.init (some n) =
        .error "TypeError: float() argument must be a string, not NoneType") := by
  refine ⟨?_, ?_, ?_, ?_⟩
  · intro n htag hlim
    simp [Axis.from_tree, htag, hlim]
  · intro n limitnode htag hlim hlower hupper heffort hvelocity
    simp [Axis.from_tree, htag, hlim, floatTag0, hlower, hupper, heffort, hvelocity,
      Axis.init]
  · intro n limitnode htag hlim hlower ax reports h
    have hlow : floatTag0 pyfloat limitnode "lower" = .ok 0 := by
      rw [floatTag0, hlower]
    cases hupper : floatTag0 pyfloat limitnode "upper" with
    | error e => simp [Axis.from_tree, htag, hlim, hlow, hupper] at h
    | ok upper =>
      cases heffort : floatTag0 pyfloat limitnode "effort" with
      | error e => simp [Axis.from_tree, htag, hlim, hlow, hupper, heffort] at h
      | ok effort =>
        cases hvel : floatTag0 pyfloat limitnode "velocity" with
        | error e =>
          simp [Axis.from_tree, htag, hlim, hlow, hupper, heffort, hvel] at h
        | ok velocity =>
          simp [Axis.from_tree, htag, hlim, hlow, hupper, heffort, hvel] at h
          obtain ⟨h1, h2⟩ := h
          constructor
          · rw [← h1]
          · rw [← h2]
  · intro n limitnode c htag hlim hlower htext
    have hcrash : floatTag0 pyfloat limitnode "lower" =
        .error "TypeError: float() argument must be a string, not NoneType" := by
      rw [floatTag0, hlower]
      show (match c.text with
        | some s => Except.ok (pyfloat s)
        | none => Except.error
            "TypeError: float() argument must be a string, not NoneType") =
        Except.error "TypeError: float() argument must be a string, not NoneType"
      rw [htext]
    simp [Axis.from_tree, htag, hlim, hcrash]

/-! ## Claim C5: `get_parent` and `find_root_link` -/

/- `Model.get_parent` (`parse.py` line 333).  The Python recursion walks down
into submodels and up through `parent_model`; the embedding passes the chain
of enclosing models explicitly (`ancestors`) and spends one unit of fuel per
recursive call (the source bounds the recursion only through the `visited`
name list). -/
mutual

def Model.get_parent : Model → Nat → List Model → String → String → List String → Option Link
  | _, 0, _, _, _, _ => none
  | .mk nm p pw i links joints subs rl, Nat.succ fuel, ancestors,
      requested_linkname, pfx, visited =>
    if visited.contains nm then none
    else
      match joints.find? (fun j => j.child == fullPrefix pfx ++ requested_linkname) with
      | some joint =>
        Model.get_link (.mk nm p pw i links joints subs rl) joint.parent ""
      | none =>
        match getParentInSubmodels subs fuel
            (Model.mk nm p pw i links joints subs rl :: ancestors)
            requested_linkname (fullPrefix pfx) (visited ++ [nm]) with
        | some res => some res
        | none =>
          match ancestors with
          | parent :: rest =>
            Model.get_parent parent fuel rest requested_linkname nm (visited ++ [nm])
          | [] => none

def getParentInSubmodels : ModelList → Nat → List Model → String → String → List String → Option Link
  | _, 0, _, _, _, _ => none
  | .nil, _+1, _, _, _, _ => none
  | .cons s tail, Nat.succ fuel, ancestors, requested_linkname, fpfx, visited =>
    match Model.get_parent s fuel ancestors requested_linkname (fpfx ++ s.name) visited with
    | some res => some res
    | none => getParentInSubmodels tail fuel ancestors requested_linkname fpfx visited

end

/-- Possible outcomes of `Model.find_root_link`: a link, the `IndexError` of
`self.links[0]` on a model with no links, or fuel exhaustion standing for a
non-terminating `while True` walk. -/
inductive RootResult where
  | found (l : Link)
  | indexError
  | noFuel

/-- Loop `while True: parent_link = self.get_parent(curr_link.name); if not
parent_link: return curr_link; curr_link = parent_link` (`parse.py` line 326). -/
def Model.find_root_walk (m : Model) : Nat → Link → RootResult
  | 0, _ => .noFuel
  | Nat.succ fuel, curr_link =>
    match m.get_parent (Nat.succ fuel) [] curr_link.name "" [] with
    | none => .found curr_link
    | some parent_link => m.find_root_walk fuel parent_link

/-- `Model.find_root_link` (`parse.py` line 324): starts the walk from
`self.links[0]` — an `IndexError` when the model has no links. -/
def Model.find_root_link (m : Model) (fuel : Nat) : RootResult :=
  match m.links with
  | [] => .indexError
  | curr_link :: _ => m.find_root_walk fuel curr_link

/-! Concrete counterexample documents for C5. -/

/-- Top-level link `base` of model `M` (instance 20). -/
def linkBase : Link := .mk "base" identity_matrix identity_matrix 20 none []

/-- Link `y` of submodel `S` (instance 21); child of joint `K`. -/
def linkY : Link := .mk "y" identity_matrix identity_matrix 21 none []

/-- Link `x` of submodel `S`: the unique link with no parent joint. -/
def linkX : Link := .mk "x" identity_matrix identity_matrix 21 none []

/-- Top-level joint `J`: parent `S::y`, child `base`. -/
def jointJtop : Joint :=
  .mk "J" identity_matrix identity_matrix 20 "fixed" "S::y" "base" Axis.init none none

/-- Submodel joint `K`: parent `x`, child `y` (both inside `S`). -/
def jointKsub : Joint :=
  .mk "K" identity_matrix identity_matrix 21 "fixed" "x" "y" Axis.init none none

/-- Submodel `S` with links `y`, `x` and joint `K`. -/
def modelS5 : Model :=
  .mk "S" identity_matrix identity_matrix 21 [linkY, linkX] [jointKsub] .nil none

/-- Top model `M`: link `base`, joint `J`, submodel `S`.  The kinematic chain
is `x → y → base` (a single tree), every link is the child of at most one
joint, and the unique parentless link is `x`. -/
def modelM5 : Model :=
  .mk "M" identity_matrix identity_matrix 20 [linkBase] [jointJtop]
    (.cons modelS5 .nil) none

/-- Top-level model with no links at all. -/
def emptyModel : Model := .mk "empty" identity_matrix identity_matrix 30 [] [] .nil none

/-- Isolated link `u` (two-component forest scenario). -/
def linkU : Link := .mk "u" identity_matrix identity_matrix 31 none []

/-- Isolated link `v`. -/
def linkV : Link := .mk "v" identity_matrix identity_matrix 31 none []

/-- Model whose joints form a two-component forest (no joints, two links). -/
def modelF5 : Model :=
  .mk "F" identity_matrix identity_matrix 31 [linkU, linkV] [] .nil none

-- Sanity: the walk terminates on the counterexample document and returns y.
example : Model.find_root_link modelM5 100 = .found linkY := rfl
example : Model.find_root_link emptyModel 5 = .indexError := rfl
example : Model.find_root_walk modelF5 5 linkU = .found linkU := rfl
example : Model.find_root_walk modelF5 5 linkV = .found linkV := rfl

/-! ## Claim C7: `build_tree` and unresolved joint endpoints -/

def Link.append_tree_child_joint : Link → Joint → Link
  | .mk n p pw pm tpj tcj, j => .mk n p pw pm tpj (tcj ++ [j])

def Link.set_tree_parent_joint : Link → Joint → Link
  | .mk n p pw pm _ tcj, j => .mk n p pw pm (some j) tcj

def Joint.set_tree_links : Joint → Option Link → Option Link → Joint
  | .mk n p pw pm t pa c a _ _, tpl, tcl => .mk n p pw pm t pa c a tpl tcl

/-- Update the first link of the list satisfying `pred` with `f` (the list
analogue of mutating the object `get_link` returned); the Bool tells whether
a link was updated. -/
def modifyFirstLink (pred : Link → Bool) (f : Link → Link) :
    List Link → List Link × Bool
  | [] => ([], false)
  | l :: rest =>
    if pred l then (f l :: rest, true)
    else
      match modifyFirstLink pred f rest with
      | (rest', found) => (l :: rest', found)

/- In-place mutation of the link object returned by `Model.get_link`,
expressed functionally: update the link at the position `get_link` finds
(same search order, same name matching). -/
mutual

def Model.modify_link : Model → String → String → (Link → Link) → Model × Bool
  | .mk n p pw i links joints subs rl, requested, pfx, f =>
    match modifyFirstLink (fun l => fullPrefix pfx ++ l.name == requested) f links with
    | (links', true) => (.mk n p pw i links' joints subs rl, true)
    | (_, false) =>
      match modifyLinkInSubmodels subs requested pfx f with
      | (subs', found) => (.mk n p pw i links joints subs' rl, found)

def modifyLinkInSubmodels : ModelList → String → String → (Link → Link) → ModelList × Bool
  | .nil, _, _, _ => (.nil, false)
  | .cons s tail, requested, pfx, f =>
    match Model.modify_link s requested
        (if pfx == "" then s.name else pfx ++ "::" ++ s.name) f with
    | (s', true) => (.cons s' tail, true)
    | (s', false) =>
      match modifyLinkInSubmodels tail requested pfx f with
      | (tail', found) => (.cons s' tail', found)

end

/-- One pass of the `for joint in self.joints` loop of `Model.build_tree`
(`parse.py` lines 304-308): resolve both endpoints, store them on the joint,
then dereference them to update the two links' back-references — the
dereference of an unresolved endpoint is the Python `AttributeError`. -/
def buildTreeJoints (m : Model) : List Joint → Except String (Model × List Joint)
  | [] => .ok (m, [])
  | j :: rest =>
    let tpl := m.get_link j.parent ""
    let tcl := m.get_link j.child ""
    let j' := j.set_tree_links tpl tcl
    match tpl with
    | none => .error "AttributeError: NoneType has no attribute tree_child_joints"
    | some _ =>
      let m1 := (m.modify_link j.parent "" (fun l => l.append_tree_child_joint j')).1
      match tcl with
      | none => .error "AttributeError: NoneType has no attribute tree_parent_joint"
      | some _ =>
        let m2 := (m1.modify_link j.child "" (fun l => l.set_tree_parent_joint j')).1
        match buildTreeJoints m2 rest with
        | .error e => .error e
        | .ok (m3, rest') => .ok (m3, j' :: rest')

def Model.set_joints_submodels : Model → List Joint → ModelList → Model
  | .mk n p pw i links _ _ rl, joints, subs => .mk n p pw i links joints subs rl

/- `Model.build_tree` (`parse.py` line 303): process the model's own joints
(resolving endpoints against this model's scope), then recurse into every
submodel.  Fuel only bounds the recursion depth of the embedding; the Python
recursion depth is the authored nesting depth. -/
mutual

def Model.build_tree : Model → Nat → Except String Model
  | _, 0 => .error "RecursionError"
  | .mk n p pw i links joints subs rl, Nat.succ fuel =>
    match buildTreeJoints (.mk n p pw i links joints subs rl) joints with
    | .error e => .error e
    | .ok (m1, joints') =>
      match buildTreeSubmodels m1.submodels fuel with
      | .error e => .error e
      | .ok subs' => .ok (m1.set_joints_submodels joints' subs')

def buildTreeSubmodels : ModelList → Nat → Except String ModelList
  | _, 0 => .error "RecursionError"
  | .nil, _+1 => .ok .nil
  | .cons s tail, Nat.succ fuel =>
    match Model.build_tree s fuel with
    | .error e => .error e
    | .ok s' =>
      match buildTreeSubmodels tail fuel with
      | .error e => .error e
      | .ok tail' => .ok (.cons s' tail')

end

-- Sanity: build_tree succeeds on the C5 document and marks y as having a
-- tree parent joint (it is the child of submodel joint K).
example :
    ((Model.build_tree modelM5 5).toOption.bind
      (fun m' => (m'.get_link "S::y" "").map
        (fun l => l.tree_parent_joint.isSome))) = some true := rfl

theorem Link.append_tree_child_joint_name (l : Link) (j : Joint) :
    (l.append_tree_child_joint j).name = l.name := by
  cases l; rfl

theorem Link.set_tree_parent_joint_name (l : Link) (j : Joint) :
    (l.set_tree_parent_joint j).name = l.name := by
  cases l; rfl

/-- The first-match update keeps `find?` success for any predicate invariant
under the update function (name-based predicates under name-preserving
updates). -/
theorem modifyFirstLink_find?_isSome (pred pred' : Link → Bool) (f : Link → Link)
    (hf : ∀ l, pred' (f l) = pred' l) :
    ∀ links : List Link,
      (((modifyFirstLink pred f links).1.find? pred').isSome =
        (links.find? pred').isSome) := by
  intro links
  induction links with
  | nil => rfl
  | cons l rest ih =>
    cases hm : modifyFirstLink pred f rest with
    | mk rest' found =>
      rw [hm] at ih
      rw [modifyFirstLink, hm]
      by_cases hp : pred l
      · rw [if_pos hp]
        show (List.find? pred' (f l :: rest)).isSome =
          (List.find? pred' (l :: rest)).isSome
        cases hpl : pred' l
        · rw [List.find?_cons_of_neg _ (by simp [hf l, hpl]),
              List.find?_cons_of_neg _ (by simp [hpl])]
        · rw [List.find?_cons_of_pos _ (by rw [hf l]; exact hpl),
              List.find?_cons_of_pos _ hpl]
          rfl
      · rw [if_neg hp]
        show (List.find? pred' (l :: rest')).isSome =
          (List.find? pred' (l :: rest)).isSome
        cases hpl : pred' l
        · rw [List.find?_cons_of_neg _ (by simp [hpl]),
              List.find?_cons_of_neg _ (by simp [hpl])]
          exact ih
        · rw [List.find?_cons_of_pos _ hpl, List.find?_cons_of_pos _ hpl]

theorem Model.modify_link_name :
    ∀ (m : Model) (q p : String) (f : Link → Link),
    ((m.modify_link q p f).1).name = m.name
  | .mk n pp pw i links joints subs rl, q, p, f => by
    rw [Model.modify_link]
    rcases modifyFirstLink (fun l => fullPrefix p ++ l.name == q) f links with ⟨links', found⟩
    cases found
    · rcases modifyLinkInSubmodels subs q p f with ⟨subs', fnd⟩
      rfl
    · rfl

/- Name-preserving in-place link updates do not change whether any
`get_link` lookup succeeds, anywhere in the model tree. -/
mutual

theorem modify_get_link_isSome :
    ∀ (m : Model) (q p : String) (f : Link → Link) (req pfx : String),
    (∀ l, Link.name (f l) = Link.name l) →
    (Model.get_link ((m.modify_link q p f).1) req pfx).isSome =
      (Model.get_link m req pfx).isSome
  | .mk n pp pw i links joints subs rl, q, p, f, req, pfx, hf => by
    rw [Model.modify_link]
    rcases hm : modifyFirstLink (fun l => fullPrefix p ++ l.name == q) f links with ⟨links', found⟩
    have hfind := modifyFirstLink_find?_isSome
      (fun l => fullPrefix p ++ l.name == q)
      (fun l => fullPrefix pfx ++ l.name == req) f
      (fun l => by
        show (fullPrefix pfx ++ (f l).name == req) = (fullPrefix pfx ++ l.name == req)
        rw [hf l]) links
    rw [hm] at hfind
    cases found
    · rcases hs : modifyLinkInSubmodels subs q p f with ⟨subs', fnd⟩
      show (Model.get_link (.mk n pp pw i links joints subs' rl) req pfx).isSome =
        (Model.get_link (.mk n pp pw i links joints subs rl) req pfx).isSome
      rw [Model.get_link, Model.get_link]
      cases h1 : links.find? (fun l => fullPrefix pfx ++ l.name == req) with
      | some l2 => rfl
      | none =>
        have htail := modify_getLinkInSubmodels_isSome subs q p f req pfx hf
        rw [hs] at htail
        exact htail
    · show (Model.get_link (.mk n pp pw i links' joints subs rl) req pfx).isSome =
        (Model.get_link (.mk n pp pw i links joints subs rl) req pfx).isSome
      rw [Model.get_link, Model.get_link]
      cases h1 : links.find? (fun l => fullPrefix pfx ++ l.name == req) with
      | some l2 =>
        rw [h1] at hfind
        simp only [Option.isSome_some] at hfind
        obtain ⟨l1, hl1⟩ := Option.isSome_iff_exists.mp hfind
        rw [hl1]
        rfl
      | none =>
        rw [h1] at hfind
        simp only [Option.isSome_none] at hfind
        have : links'.find? (fun l => fullPrefix pfx ++ l.name == req) = none := by
          cases h2 : links'.find? (fun l => fullPrefix pfx ++ l.name == req) with
          | some x => rw [h2] at hfind; simp at hfind
          | none => rfl
        rw [this]

theorem modify_getLinkInSubmodels_isSome :
    ∀ (subs : ModelList) (q p : String) (f : Link → Link) (req pfx : String),
    (∀ l, Link.name (f l) = Link.name l) →
    (getLinkInSubmodels ((modifyLinkInSubmodels subs q p f).1) req pfx).isSome =
      (getLinkInSubmodels subs req pfx).isSome
  | .nil, q, p, f, req, pfx, hf => rfl
  | .cons s tail, q, p, f, req, pfx, hf => by
    rw [modifyLinkInSubmodels]
    rcases hms : Model.modify_link s q
        (if p == "" then s.name else p ++ "::" ++ s.name) f with ⟨s', sfound⟩
    have hname : s'.name = s.name := by
      have h0 := Model.modify_link_name s q
        (if p == "" then s.name else p ++ "::" ++ s.name) f
      rw [hms] at h0
      exact h0
    have hslink := modify_get_link_isSome s q
      (if p == "" then s.name else p ++ "::" ++ s.name) f req
      (if pfx == "" then s.name else pfx ++ "::" ++ s.name) hf
    rw [hms] at hslink
    cases sfound
    · rcases hmt : modifyLinkInSubmodels tail q p f with ⟨tail', tfound⟩
      show (getLinkInSubmodels (.cons s' tail') req pfx).isSome =
        (getLinkInSubmodels (.cons s tail) req pfx).isSome
      rw [getLinkInSubmodels, getLinkInSubmodels, hname]
      cases h2 : Model.get_link s req
          (if pfx == "" then s.name else pfx ++ "::" ++ s.name) with
      | some x =>
        rw [h2] at hslink
        simp only [Option.isSome_some] at hslink
        obtain ⟨y, hy⟩ := Option.isSome_iff_exists.mp hslink
        rw [hy]
        rfl
      | none =>
        rw [h2] at hslink
        simp only [Option.isSome_none] at hslink
        have hs'none : Model.get_link s' req
            (if pfx == "" then s.name else pfx ++ "::" ++ s.name) = none := by
          cases h3 : Model.get_link s' req
              (if pfx == "" then s.name else pfx ++ "::" ++ s.name) with
          | some x => rw [h3] at hslink; simp at hslink
          | none => rfl
        rw [hs'none]
        have htail := modify_getLinkInSubmodels_isSome tail q p f req pfx hf
        rw [hmt] at htail
        exact htail
    · show (getLinkInSubmodels (.cons s' tail) req pfx).isSome =
        (getLinkInSubmodels (.cons s tail) req pfx).isSome
      rw [getLinkInSubmodels, getLinkInSubmodels, hname]
      cases h2 : Model.get_link s req
          (if pfx == "" then s.name else pfx ++ "::" ++ s.name) with
      | some x =>
        rw [h2] at hslink
        simp only [Option.isSome_some] at hslink
        obtain ⟨y, hy⟩ := Option.isSome_iff_exists.mp hslink
        rw [hy]
        rfl
      | none =>
        rw [h2] at hslink
        simp only [Option.isSome_none] at hslink
        have hs'none : Model.get_link s' req
            (if pfx == "" then s.name else pfx ++ "::" ++ s.name) = none := by
          cases h3 : Model.get_link s' req
              (if pfx == "" then s.name else pfx ++ "::" ++ s.name) with
          | some x => rw [h3] at hslink; simp at hslink
          | none => rfl
        rw [hs'none]

end

/- A document has an unresolved joint endpoint when some joint's `parent` or
`child` does not resolve through the owning model's scope (`get_link`),
anywhere in the model tree. -/
mutual

def Model.hasUnresolvedJoint : Model → Bool
  | .mk n p pw i links joints subs rl =>
    joints.any (fun j =>
      (Model.get_link (.mk n p pw i links joints subs rl) j.parent "").isNone ||
      (Model.get_link (.mk n p pw i links joints subs rl) j.child "").isNone) ||
    ModelList.hasUnresolvedJoint subs

def ModelList.hasUnresolvedJoint : ModelList → Bool
  | .nil => false
  | .cons s tail => Model.hasUnresolvedJoint s || ModelList.hasUnresolvedJoint tail

end

theorem isNone_congr_of_isSome {a b : Option Link} (h : a.isSome = b.isSome) :
    a.isNone = b.isNone := by
  cases a <;> cases b <;> simp_all

theorem Model.modify_link_joints :
    ∀ (m : Model) (q p : String) (f : Link → Link),
    ((m.modify_link q p f).1).joints = m.joints
  | .mk n pp pw i links joints subs rl, q, p, f => by
    rw [Model.modify_link]
    rcases modifyFirstLink (fun l => fullPrefix p ++ l.name == q) f links with ⟨links', found⟩
    cases found
    · rcases modifyLinkInSubmodels subs q p f with ⟨subs', fnd⟩
      rfl
    · rfl

/- Name-preserving link updates do not change `hasUnresolvedJoint`. -/
mutual

theorem modify_hasUnresolved :
    ∀ (m : Model) (q p : String) (f : Link → Link),
    (∀ l, Link.name (f l) = Link.name l) →
    ((m.modify_link q p f).1).hasUnresolvedJoint = m.hasUnresolvedJoint
  | .mk n pp pw i links joints subs rl, q, p, f, hf => by
    rcases hm : modifyFirstLink (fun l => fullPrefix p ++ l.name == q) f links with ⟨links', found⟩
    cases found
    · rcases hs : modifyLinkInSubmodels subs q p f with ⟨subs', fnd⟩
      have hcast :
          (Model.mk n pp pw i links joints subs rl).modify_link q p f =
            (.mk n pp pw i links joints subs' rl, fnd) := by
        rw [Model.modify_link, hm, hs]
      rw [hcast]
      rw [Model.hasUnresolvedJoint, Model.hasUnresolvedJoint]
      have hjoints : ∀ j : Joint,
          ((Model.get_link (.mk n pp pw i links joints subs' rl) j.parent "").isNone ||
            (Model.get_link (.mk n pp pw i links joints subs' rl) j.child "").isNone) =
          ((Model.get_link (.mk n pp pw i links joints subs rl) j.parent "").isNone ||
            (Model.get_link (.mk n pp pw i links joints subs rl) j.child "").isNone) := by
        intro j
        have h1 := modify_get_link_isSome (.mk n pp pw i links joints subs rl)
          q p f j.parent "" hf
        have h2 := modify_get_link_isSome (.mk n pp pw i links joints subs rl)
          q p f j.child "" hf
        rw [hcast] at h1 h2
        rw [isNone_congr_of_isSome h1, isNone_congr_of_isSome h2]
      have hfun : (fun j : Joint =>
          (Model.get_link (.mk n pp pw i links joints subs' rl) j.parent "").isNone ||
          (Model.get_link (.mk n pp pw i links joints subs' rl) j.child "").isNone) =
        (fun j : Joint =>
          (Model.get_link (.mk n pp pw i links joints subs rl) j.parent "").isNone ||
          (Model.get_link (.mk n pp pw i links joints subs rl) j.child "").isNone) :=
        funext hjoints
      rw [hfun]
      have hsubs := modifyInSubmodels_hasUnresolved subs q p f hf
      rw [hs] at hsubs
      rw [hsubs]
    · have hcast :
          (Model.mk n pp pw i links joints subs rl).modify_link q p f =
            (.mk n pp pw i links' joints subs rl, true) := by
        rw [Model.modify_link, hm]
      rw [hcast]
      rw [Model.hasUnresolvedJoint, Model.hasUnresolvedJoint]
      have hjoints : ∀ j : Joint,
          ((Model.get_link (.mk n pp pw i links' joints subs rl) j.parent "").isNone ||
            (Model.get_link (.mk n pp pw i links' joints subs rl) j.child "").isNone) =
          ((Model.get_link (.mk n pp pw i links joints subs rl) j.parent "").isNone ||
            (Model.get_link (.mk n pp pw i links joints subs rl) j.child "").isNone) := by
        intro j
        have h1 := modify_get_link_isSome (.mk n pp pw i links joints subs rl)
          q p f j.parent "" hf
        have h2 := modify_get_link_isSome (.mk n pp pw i links joints subs rl)
          q p f j.child "" hf
        rw [hcast] at h1 h2
        rw [isNone_congr_of_isSome h1, isNone_congr_of_isSome h2]
      have hfun : (fun j : Joint =>
          (Model.get_link (.mk n pp pw i links' joints subs rl) j.parent "").isNone ||
          (Model.get_link (.mk n pp pw i links' joints subs rl) j.child "").isNone) =
        (fun j : Joint =>
          (Model.get_link (.mk n pp pw i links joints subs rl) j.parent "").isNone ||
          (Model.get_link (.mk n pp pw i links joints subs rl) j.child "").isNone) :=
        funext hjoints
      rw [hfun]

theorem modifyInSubmodels_hasUnresolved :
    ∀ (subs : ModelList) (q p : String) (f : Link → Link),
    (∀ l, Link.name (f l) = Link.name l) →
    ModelList.hasUnresolvedJoint ((modifyLinkInSubmodels subs q p f).1) =
      ModelList.hasUnresolvedJoint subs
  | .nil, q, p, f, hf => rfl
  | .cons s tail, q, p, f, hf => by
    rcases hms : Model.modify_link s q
        (if p == "" then s.name else p ++ "::" ++ s.name) f with ⟨s', sfound⟩
    have hsm := modify_hasUnresolved s q
      (if p == "" then s.name else p ++ "::" ++ s.name) f hf
    rw [hms] at hsm
    cases sfound
    · rcases hmt : modifyLinkInSubmodels tail q p f with ⟨tail', tfound⟩
      have hcast : modifyLinkInSubmodels (.cons s tail) q p f =
          (.cons s' tail', tfound) := by
        rw [modifyLinkInSubmodels, hms, hmt]
      rw [hcast]
      rw [ModelList.hasUnresolvedJoint, ModelList.hasUnresolvedJoint, hsm]
      have htail := modifyInSubmodels_hasUnresolved tail q p f hf
      rw [hmt] at htail
      rw [htail]
    · have hcast : modifyLinkInSubmodels (.cons s tail) q p f =
          (.cons s' tail, true) := by
        rw [modifyLinkInSubmodels, hms]
      rw [hcast]
      rw [ModelList.hasUnresolvedJoint, ModelList.hasUnresolvedJoint, hsm]

end

/-- Joint-loop step of `build_tree`: if any pending joint has an endpoint
that does not resolve, the loop raises (first such joint reached wins). -/
theorem buildTreeJoints_error :
    ∀ (joints : List Joint) (m : Model),
    (∃ j ∈ joints, (Model.get_link m j.parent "").isNone = true ∨
      (Model.get_link m j.child "").isNone = true) →
    ∃ e, buildTreeJoints m joints = .error e := by
  intro joints
  induction joints with
  | nil =>
    rintro m ⟨j, hj, _⟩
    exact absurd hj (List.not_mem_nil j)
  | cons j0 rest ih =>
    rintro m ⟨j, hj, hbad⟩
    cases hp : Model.get_link m j0.parent "" with
    | none =>
      refine ⟨"AttributeError: NoneType has no attribute tree_child_joints", ?_⟩
      rw [buildTreeJoints, hp]
    | some pl =>
      cases hc : Model.get_link m j0.child "" with
      | none =>
        refine ⟨"AttributeError: NoneType has no attribute tree_parent_joint", ?_⟩
        rw [buildTreeJoints, hp, hc]
      | some cl =>
        rcases List.mem_cons.mp hj with rfl | hjr
        · rcases hbad with hbadp | hbadc
          · rw [hp] at hbadp; simp at hbadp
          · rw [hc] at hbadc; simp at hbadc
        · have hf1 : ∀ l : Link,
              Link.name (l.append_tree_child_joint
                (j0.set_tree_links (some pl) (some cl))) = Link.name l :=
            fun l => Link.append_tree_child_joint_name l _
          have hf2 : ∀ l : Link,
              Link.name (l.set_tree_parent_joint
                (j0.set_tree_links (some pl) (some cl))) = Link.name l :=
            fun l => Link.set_tree_parent_joint_name l _
          set j' := j0.set_tree_links (some pl) (some cl) with hj'
          set m1 := (m.modify_link j0.parent ""
            (fun l => l.append_tree_child_joint j')).1 with hm1
          set m2 := (m1.modify_link j0.child ""
            (fun l => l.set_tree_parent_joint j')).1 with hm2
          have htrans : ∀ s : String,
              (Model.get_link m2 s "").isNone = (Model.get_link m s "").isNone := by
            intro s
            have t2 := modify_get_link_isSome m1 j0.child ""
              (fun l => l.set_tree_parent_joint j') s "" hf2
            have t1 := modify_get_link_isSome m j0.parent ""
              (fun l => l.append_tree_child_joint j') s "" hf1
            rw [← hm1] at t1
            rw [← hm2] at t2
            exact (isNone_congr_of_isSome t2).trans (isNone_congr_of_isSome t1)
          obtain ⟨e, he⟩ := ih m2 ⟨j, hjr, by
            rcases hbad with hbadp | hbadc
            · exact Or.inl ((htrans j.parent).trans hbadp)
            · exact Or.inr ((htrans j.child).trans hbadc)⟩
          refine ⟨e, ?_⟩
          rw [buildTreeJoints, hp, hc]
          show (match buildTreeJoints m2 rest with
            | Except.error e => Except.error e
            | Except.ok (m3, rest') => Except.ok (m3, j' :: rest')) = Except.error e
          rw [he]

theorem Model.modify_link_submodels_hasUnresolved :
    ∀ (m : Model) (q p : String) (f : Link → Link),
    (∀ l, Link.name (f l) = Link.name l) →
    ModelList.hasUnresolvedJoint (((m.modify_link q p f).1).submodels) =
      ModelList.hasUnresolvedJoint m.submodels
  | .mk n pp pw i links joints subs rl, q, p, f, hf => by
    rcases hm : modifyFirstLink (fun l => fullPrefix p ++ l.name == q) f links with ⟨links', found⟩
    cases found
    · rcases hs : modifyLinkInSubmodels subs q p f with ⟨subs', fnd⟩
      have hcast :
          (Model.mk n pp pw i links joints subs rl).modify_link q p f =
            (.mk n pp pw i links joints subs' rl, fnd) := by
        rw [Model.modify_link, hm, hs]
      rw [hcast]
      have htail := modifyInSubmodels_hasUnresolved subs q p f hf
      rw [hs] at htail
      exact htail
    · have hcast :
          (Model.mk n pp pw i links joints subs rl).modify_link q p f =
            (.mk n pp pw i links' joints subs rl, true) := by
        rw [Model.modify_link, hm]
      rw [hcast]
      rfl

/-- Joint-loop of `build_tree`: on success, whether the submodels contain an
unresolved joint is unchanged (the loop only updates link back-references,
never names). -/
theorem buildTreeJoints_submodels :
    ∀ (joints : List Joint) (m m1 : Model) (js' : List Joint),
    buildTreeJoints m joints = .ok (m1, js') →
    ModelList.hasUnresolvedJoint m1.submodels =
      ModelList.hasUnresolvedJoint m.submodels := by
  intro joints
  induction joints with
  | nil =>
    intro m m1 js' h
    rw [buildTreeJoints] at h
    simp only [Except.ok.injEq, Prod.mk.injEq] at h
    rw [h.1]
  | cons j0 rest ih =>
    intro m m1 js' h
    rw [buildTreeJoints] at h
    cases hp : Model.get_link m j0.parent "" with
    | none => rw [hp] at h; exact absurd h (by simp)
    | some pl =>
      rw [hp] at h
      cases hc : Model.get_link m j0.child "" with
      | none => rw [hc] at h; exact absurd h (by simp)
      | some cl =>
        rw [hc] at h
        set j' := j0.set_tree_links (some pl) (some cl) with hj'
        set m2 := (((m.modify_link j0.parent ""
            (fun l => l.append_tree_child_joint j')).1).modify_link j0.child ""
            (fun l => l.set_tree_parent_joint j')).1 with hm2
        have h2 : (match buildTreeJoints m2 rest with
            | Except.error e => Except.error e
            | Except.ok (m3, rest') => Except.ok (m3, j' :: rest')) =
            Except.ok (m1, js') := h
        cases hr : buildTreeJoints m2 rest with
        | error e =>
          rw [hr] at h2
          exact absurd h2 (by simp)
        | ok pr =>
          rcases pr with ⟨m3, rest'⟩
          rw [hr] at h2
          simp only [Except.ok.injEq, Prod.mk.injEq] at h2
          rw [← h2.1]
          have hstep := ih m2 m3 rest' hr
          have hpm1 := Model.modify_link_submodels_hasUnresolved
            ((m.modify_link j0.parent "" (fun l => l.append_tree_child_joint j')).1)
            j0.child "" (fun l => l.set_tree_parent_joint j')
            (fun l => Link.set_tree_parent_joint_name l _)
          have hpm0 := Model.modify_link_submodels_hasUnresolved m j0.parent ""
            (fun l => l.append_tree_child_joint j')
            (fun l => Link.append_tree_child_joint_name l _)
          rw [← hm2] at hpm1
          exact hstep.trans (hpm1.trans hpm0)

/- A document with an unresolved joint endpoint never completes `build_tree`:
the dangling back-reference is dereferenced (the Python `AttributeError`), at
whatever nesting depth the offending joint sits. -/
mutual

theorem build_tree_unresolved :
    ∀ (m : Model) (fuel : Nat), m.hasUnresolvedJoint = true →
    (m.build_tree fuel).isOk = false
  | _, 0, _ => by rw [Model.build_tree]; rfl
  | .mk n p pw i links joints subs rl, Nat.succ fuel, h => by
    rw [Model.build_tree]
    rw [Model.hasUnresolvedJoint, Bool.or_eq_true] at h
    cases hph : buildTreeJoints (.mk n p pw i links joints subs rl) joints with
    | error e => rfl
    | ok pr =>
      rcases pr with ⟨m1, js'⟩
      rcases h with hown | hsub
      · obtain ⟨j, hj, hbad⟩ := List.any_eq_true.mp hown
        rw [Bool.or_eq_true] at hbad
        have hex : ∃ e, buildTreeJoints (.mk n p pw i links joints subs rl) joints =
            .error e := by
          refine buildTreeJoints_error joints (.mk n p pw i links joints subs rl)
            ⟨j, hj, ?_⟩
          rcases hbad with hb | hb
          · exact Or.inl hb
          · exact Or.inr hb
        obtain ⟨e, he⟩ := hex
        rw [hph] at he
        exact absurd he (by simp)
      · have hsubs1 : ModelList.hasUnresolvedJoint m1.submodels = true := by
          rw [buildTreeJoints_submodels joints
            (.mk n p pw i links joints subs rl) m1 js' hph]
          exact hsub
        have hrec := buildTreeSubmodels_unresolved m1.submodels fuel hsubs1
        show (match buildTreeSubmodels m1.submodels fuel with
          | Except.error e => Except.error e
          | Except.ok subs' => Except.ok (m1.set_joints_submodels js' subs')).isOk = false
        cases hbs : buildTreeSubmodels m1.submodels fuel with
        | error e => rfl
        | ok subs' =>
          rw [hbs] at hrec
          simp [Except.isOk, Except.toBool] at hrec

theorem buildTreeSubmodels_unresolved :
    ∀ (subs : ModelList) (fuel : Nat), ModelList.hasUnresolvedJoint subs = true →
    (buildTreeSubmodels subs fuel).isOk = false
  | _, 0, _ => by rw [buildTreeSubmodels]; rfl
  | .nil, Nat.succ fuel, h => by
    rw [ModelList.hasUnresolvedJoint] at h
    exact absurd h (by simp)
  | .cons s tail, Nat.succ fuel, h => by
    rw [buildTreeSubmodels]
    rw [ModelList.hasUnresolvedJoint, Bool.or_eq_true] at h
    cases hbs : Model.build_tree s fuel with
    | error e => rfl
    | ok s' =>
      rcases h with hs | ht
      · have hsb := build_tree_unresolved s fuel hs
        rw [hbs] at hsb
        simp [Except.isOk, Except.toBool] at hsb
      · show (match buildTreeSubmodels tail fuel with
          | Except.error e => Except.error e
          | Except.ok tail' => Except.ok (ModelList.cons s' tail')).isOk = false
        cases hbt : buildTreeSubmodels tail fuel with
        | error e => rfl
        | ok tail' =>
          have hrec := buildTreeSubmodels_unresolved tail fuel ht
          rw [hbt] at hrec
          simp [Except.isOk, Except.toBool] at hrec

end

/-- Link `base2` of the unresolved-reference scenario (instance 40). -/
def linkBase2 : Link := .mk "base2" identity_matrix identity_matrix 40 none []

/-- Joint whose `parent` name `nonexistent` resolves to no link. -/
def brokenJoint : Joint :=
  .mk "bj" identity_matrix identity_matrix 40 "fixed" "nonexistent" "base2"
    Axis.init none none

/-- Top-level model with the dangling joint. -/
def c7Model : Model :=
  .mk "W" identity_matrix identity_matrix 40 [linkBase2] [brokenJoint] .nil none

/-- C7 counterexample: on a document whose joint `parent` does not resolve,
`build_tree` does not leave the back-reference absent and carry on — it
dereferences the absent reference and crashes (`AttributeError`), so the
conversion does not survive an unresolved reference. -/
theorem c7_counterexample :
    Model.get_link c7Model "nonexistent" "" = none ∧
    Model.build_tree c7Model 5 =
      Except.error "AttributeError: NoneType has no attribute tree_child_joints" ∧
    (Joint.add_urdf_elements (fun _ _ => 0) brokenJoint "").isOk = false :=
  ⟨rfl, rfl, rfl⟩

/-- C7 (amended): when a joint's `parent` or `child` name fails to resolve,
the corresponding tree back-reference is computed as absent, but `build_tree`
dereferences it immediately while installing the link back-references and
crashes with an `AttributeError` (at any nesting depth, first conjunct), and
the joint flattener likewise dereferences an absent `tree_parent_link` and
crashes (second conjunct); only the root-finding walk treats the absent
reference as "no such link" and carries on (third conjunct: on the concrete
dangling document the walk returns the joint's child link instead of
crashing).  The fourth conjunct shows the first conjunct's hypothesis is
satisfied by the concrete dangling document. -/
theorem c7_amended_unresolved_crashes :
    (∀ (m : Model) (fuel : Nat), m.hasUnresolvedJoint = true →
      (m.build_tree fuel).isOk = false) ∧
    (∀ (euler_from_matrix : Transform → Fin 3 → ℚ) (j : Joint) (pfx : String),
      j.tree_parent_link = none →
      (j.add_urdf_elements euler_from_matrix pfx).isOk = false) ∧
    Model.find_root_link c7Model 5 = RootResult.found linkBase2 ∧
    Model.hasUnresolvedJoint c7Model = true := by
  refine ⟨build_tree_unresolved, ?_, rfl, rfl⟩
  intro euler_from_matrix j pfx h
  simp [Joint.add_urdf_elements, h, Except.map, Except.isOk, Except.toBool]

theorem getParentInSubmodels_nil (fuel : Nat) (a : List Model) (r p : String)
    (v : List String) : getParentInSubmodels .nil fuel a r p v = none := by
  cases fuel <;> rfl

theorem empty_prefix_append (s : String) : fullPrefix "" ++ s = s := rfl

/-- On a model with no submodels, one `get_parent` step from the top is the
first own joint whose `child` equals the bare requested name, resolved
through `get_link`. -/
theorem get_parent_flat (n : String) (p pw : Transform) (i : Nat)
    (links : List Link) (joints : List Joint) (rl : Option Link)
    (fuel : Nat) (name : String) :
    Model.get_parent (.mk n p pw i links joints .nil rl) (fuel+1) [] name "" [] =
      (match joints.find? (fun j => j.child == fullPrefix "" ++ name) with
       | some j => Model.get_link (.mk n p pw i links joints .nil rl) j.parent ""
       | none => none) := by
  rw [Model.get_parent]
  rw [if_neg (by simp)]
  cases hf : joints.find? (fun j => j.child == fullPrefix "" ++ name) with
  | some j => rfl
  | none =>
    rw [getParentInSubmodels_nil]

theorem get_link_flat (n : String) (p pw : Transform) (i : Nat)
    (links : List Link) (joints : List Joint) (rl : Option Link)
    (req : String) :
    Model.get_link (.mk n p pw i links joints .nil rl) req "" =
      links.find? (fun l => fullPrefix "" ++ l.name == req) := by
  rw [Model.get_link]
  cases hf : links.find? (fun l => fullPrefix "" ++ l.name == req) with
  | some l => rfl
  | none => rfl

/-- On a submodel-free model whose joints form a single tree over its links
(witnessed by a depth certificate `d`), the root-finding walk started at any
link terminates at the unique parentless link. -/
theorem flat_walk_reaches_root
    (n : String) (p pw : Transform) (i : Nat)
    (links : List Link) (joints : List Joint) (rl : Option Link) (r : Link)
    (d : String → Nat)
    (hr : r ∈ links)
    (hroot : ∀ j ∈ joints, j.child ≠ r.name)
    (hconn : ∀ l ∈ links, l.name ≠ r.name → ∃ j ∈ joints, j.child = l.name)
    (hpar : ∀ j ∈ joints, ∃ pl ∈ links, j.parent = pl.name)
    (hnames : (links.map Link.name).Nodup)
    (hdepth : ∀ j ∈ joints, ∀ pl ∈ links, j.parent = pl.name →
      d j.child = d pl.name + 1) :
    ∀ (fuel : Nat) (start : Link), start ∈ links → d start.name < fuel →
      Model.find_root_walk (.mk n p pw i links joints .nil rl) fuel start =
        .found r := by
  intro fuel
  induction fuel with
  | zero => intro start _ hd; omega
  | succ f ih =>
    intro start hst hd
    rw [Model.find_root_walk]
    rw [get_parent_flat]
    by_cases hstart : start.name = r.name
    · have hsr : start = r := List.inj_on_of_nodup_map hnames hst hr hstart
      subst hsr
      have hnone : joints.find? (fun j => j.child == fullPrefix "" ++ start.name) =
          none := by
        apply List.find?_eq_none.mpr
        intro j hj
        simp only [Bool.not_eq_true]
        rw [empty_prefix_append]
        exact beq_eq_false_iff_ne.mpr (hstart ▸ hroot j hj)
      rw [hnone]
    · obtain ⟨j0, hj0, hchild⟩ := hconn start hst hstart
      have hfsome : (joints.find? (fun j => j.child == fullPrefix "" ++ start.name)).isSome := by
        rw [List.find?_isSome]
        refine ⟨j0, hj0, ?_⟩
        rw [empty_prefix_append]
        exact beq_iff_eq.mpr hchild
      obtain ⟨j1, hj1eq⟩ := Option.isSome_iff_exists.mp hfsome
      have hj1mem := List.mem_of_find?_eq_some hj1eq
      have hj1child : j1.child = start.name := by
        have hb := List.find?_some hj1eq
        rw [empty_prefix_append] at hb
        exact eq_of_beq hb
      rw [hj1eq]
      obtain ⟨pl, hplmem, hplname⟩ := hpar j1 hj1mem
      have hglsome : (links.find? (fun l => fullPrefix "" ++ l.name == j1.parent)).isSome := by
        rw [List.find?_isSome]
        refine ⟨pl, hplmem, ?_⟩
        rw [empty_prefix_append]
        exact beq_iff_eq.mpr hplname.symm
      obtain ⟨pl1, hpl1eq⟩ := Option.isSome_iff_exists.mp hglsome
      have hpl1mem := List.mem_of_find?_eq_some hpl1eq
      have hpl1name : pl1.name = j1.parent := by
        have hb := List.find?_some hpl1eq
        rw [empty_prefix_append] at hb
        exact eq_of_beq hb
      show (match Model.get_link (.mk n p pw i links joints .nil rl) j1.parent "" with
        | none => RootResult.found start
        | some parent_link =>
          Model.find_root_walk (.mk n p pw i links joints .nil rl) f parent_link) =
        RootResult.found r
      rw [get_link_flat, hpl1eq]
      have hdp : d j1.child = d pl1.name + 1 :=
        hdepth j1 hj1mem pl1 hpl1mem hpl1name.symm
      rw [hj1child] at hdp
      exact ih pl1 hpl1mem (by omega)

theorem Link.append_tree_child_joint_tpj (l : Link) (j : Joint) :
    (l.append_tree_child_joint j).tree_parent_joint = l.tree_parent_joint := by
  cases l; rfl

theorem modifyFirstLink_keeps_prop (pred : Link → Bool) (f : Link → Link)
    (rname : String)
    (hf : ∀ l, Link.name (f l) = Link.name l)
    (hcase : (∀ l, Link.tree_parent_joint (f l) = Link.tree_parent_joint l) ∨
      (∀ l, pred l = true → Link.name l ≠ rname)) :
    ∀ links : List Link,
    (∀ l ∈ links, Link.name l = rname → Link.tree_parent_joint l = none) →
    (∀ l ∈ (modifyFirstLink pred f links).1, Link.name l = rname →
      Link.tree_parent_joint l = none) := by
  intro links
  induction links with
  | nil =>
    intro _ l hl
    rw [modifyFirstLink] at hl
    exact absurd hl (List.not_mem_nil l)
  | cons a rest ih =>
    intro hQ l hl hname
    rw [modifyFirstLink] at hl
    by_cases hp : pred a
    · rw [if_pos hp] at hl
      rcases List.mem_cons.mp hl with rfl | hl2
      · rcases hcase with hpj | hpred
        · rw [hpj]
          exact hQ a (List.mem_cons_self a rest) ((hf a).symm.trans hname)
        · exact absurd ((hf a).symm.trans hname) (hpred a hp)
      · exact hQ l (List.mem_cons_of_mem a hl2) hname
    · rw [if_neg hp] at hl
      rcases hm : modifyFirstLink pred f rest with ⟨rest', fd⟩
      rw [hm] at hl
      rcases List.mem_cons.mp hl with rfl | hl2
      · exact hQ l (List.mem_cons_self l rest) hname
      · refine ih (fun x hx hn => hQ x (List.mem_cons_of_mem a hx) hn) l ?_ hname
        rw [hm]
        exact hl2

theorem modify_link_flat_keeps_prop :
    ∀ (m : Model) (q : String) (f : Link → Link) (rname : String),
    m.submodels = ModelList.nil →
    (∀ l, Link.name (f l) = Link.name l) →
    ((∀ l, Link.tree_parent_joint (f l) = Link.tree_parent_joint l) ∨
      (∀ l, (fullPrefix "" ++ l.name == q) = true → Link.name l ≠ rname)) →
    (∀ l ∈ m.links, Link.name l = rname → Link.tree_parent_joint l = none) →
    ((m.modify_link q "" f).1.submodels = ModelList.nil ∧
     (∀ l ∈ (m.modify_link q "" f).1.links, Link.name l = rname →
       Link.tree_parent_joint l = none))
  | .mk n p pw i links joints subs rl, q, f, rname, hflat, hf, hcase, hQ => by
    have hsubs : subs = ModelList.nil := hflat
    subst hsubs
    rcases hm : modifyFirstLink (fun l => fullPrefix "" ++ l.name == q) f links with ⟨links', found⟩
    cases found
    · have hcast : (Model.mk n p pw i links joints ModelList.nil rl).modify_link q "" f =
          (.mk n p pw i links joints ModelList.nil rl, false) := by
        rw [Model.modify_link, hm]
        rfl
      rw [hcast]
      exact ⟨rfl, hQ⟩
    · have hcast : (Model.mk n p pw i links joints ModelList.nil rl).modify_link q "" f =
          (.mk n p pw i links' joints ModelList.nil rl, true) := by
        rw [Model.modify_link, hm]
      rw [hcast]
      refine ⟨rfl, ?_⟩
      have hres := modifyFirstLink_keeps_prop
        (fun l => fullPrefix "" ++ l.name == q) f rname hf hcase links hQ
      rw [hm] at hres
      exact hres

theorem Model.set_joints_submodels_links (m : Model) (js : List Joint)
    (subs : ModelList) : (m.set_joints_submodels js subs).links = m.links := by
  cases m; rfl

/-- The joint loop of `build_tree` never touches the `tree_parent_joint` of a
link that is nobody's child: on a submodel-free model, if no pending joint has
the root's name as its `child`, the root link keeps `tree_parent_joint = none`. -/
theorem buildTreeJoints_flat_keeps_root (rname : String) :
    ∀ (js : List Joint) (mc m1 : Model) (js' : List Joint),
    mc.submodels = ModelList.nil →
    (∀ j ∈ js, j.child ≠ rname) →
    (∀ l ∈ mc.links, Link.name l = rname → Link.tree_parent_joint l = none) →
    buildTreeJoints mc js = .ok (m1, js') →
    m1.submodels = ModelList.nil ∧
    (∀ l ∈ m1.links, Link.name l = rname → Link.tree_parent_joint l = none) := by
  intro js
  induction js with
  | nil =>
    intro mc m1 js' hflat _ hQ h
    rw [buildTreeJoints] at h
    simp only [Except.ok.injEq, Prod.mk.injEq] at h
    rw [← h.1]
    exact ⟨hflat, hQ⟩
  | cons j0 rest ih =>
    intro mc m1 js' hflat hch hQ h
    rw [buildTreeJoints] at h
    cases hp : Model.get_link mc j0.parent "" with
    | none =>
      rw [hp] at h
      exact absurd h (by simp)
    | some pl =>
      rw [hp] at h
      cases hc : Model.get_link mc j0.child "" with
      | none =>
        rw [hc] at h
        exact absurd h (by simp)
      | some cl =>
        rw [hc] at h
        set j' := j0.set_tree_links (some pl) (some cl) with hj'
        set mA := (mc.modify_link j0.parent ""
          (fun l => l.append_tree_child_joint j')).1 with hmA
        set mB := (mA.modify_link j0.child ""
          (fun l => l.set_tree_parent_joint j')).1 with hmB
        have h2 : (match buildTreeJoints mB rest with
            | Except.error e => Except.error e
            | Except.ok (m3, rest') => Except.ok (m3, j' :: rest')) =
            Except.ok (m1, js') := h
        cases hr : buildTreeJoints mB rest with
        | error e => rw [hr] at h2; exact absurd h2 (by simp)
        | ok pr =>
          rcases pr with ⟨m3, rest'⟩
          rw [hr] at h2
          simp only [Except.ok.injEq, Prod.mk.injEq] at h2
          have hA := modify_link_flat_keeps_prop mc j0.parent
            (fun l => l.append_tree_child_joint j') rname hflat
            (fun l => Link.append_tree_child_joint_name l j')
            (Or.inl (fun l => Link.append_tree_child_joint_tpj l j')) hQ
          rw [← hmA] at hA
          have hB := modify_link_flat_keeps_prop mA j0.child
            (fun l => l.set_tree_parent_joint j') rname hA.1
            (fun l => Link.set_tree_parent_joint_name l j')
            (Or.inr (fun l hpred => by
              have hln : Link.name l = j0.child := by
                have hb := eq_of_beq hpred
                rw [empty_prefix_append] at hb
                exact hb
              rw [hln]
              exact hch j0 (List.mem_cons_self j0 rest))) hA.2
          rw [← hmB] at hB
          have hres := ih mB m3 rest' hB.1
            (fun j hj => hch j (List.mem_cons_of_mem j0 hj)) hB.2 hr
          rw [← h2.1]
          exact hres

/-- C5 counterexample: on a well-formed document (single kinematic tree
`x → y → base`, every link the child of at most one joint) whose chain passes
through a submodel-owned joint, `find_root_link` terminates but returns the
link `y` — not the unique parentless link `x`: `y` is the child of joint `K`,
which build_tree records as `y`'s `tree_parent_joint` (second conjunct).  A
model with zero links raises `IndexError` instead of being treated as
rootless (third conjunct).  On a two-component forest (meeting the claim's
well-formedness) the walk's result depends on the starting link (remaining
conjuncts). -/
theorem c5_counterexample :
    Model.find_root_link modelM5 100 = RootResult.found linkY ∧
    ((Model.build_tree modelM5 5).toOption.bind
      (fun m' => (m'.get_link "S::y" "").map
        (fun l => l.tree_parent_joint.isSome))) = some true ∧
    Model.find_root_link emptyModel 5 = RootResult.indexError ∧
    Model.find_root_walk modelF5 5 linkU = RootResult.found linkU ∧
    Model.find_root_walk modelF5 5 linkV = RootResult.found linkV ∧
    Link.name linkU ≠ Link.name linkV :=
  ⟨rfl, rfl, rfl, rfl, rfl, by decide⟩

/-- C5 (amended): for a top-level model without submodels whose joints
reference its own links by bare, pairwise-distinct names and form a single
tree spanning all links (certified by a depth function `d`), the
`find_root_link` walk terminates from any starting link and returns the
unique link with no parent joint, which `build_tree` leaves with
`tree_parent_joint = none`; when the kinematic chain passes through
submodel-owned joints the walk may instead stop early at a link that has a
parent joint, and a model with zero links raises an `IndexError` from
`self.links[0]` rather than being treated as rootless (last conjunct). -/
theorem c5_amended_root_discovery
    (m : Model) (r : Link) (d : String → Nat)
    (hflat : m.submodels = ModelList.nil)
    (hr : r ∈ m.links)
    (hroot : ∀ j ∈ m.joints, j.child ≠ r.name)
    (hconn : ∀ l ∈ m.links, l.name ≠ r.name → ∃ j ∈ m.joints, j.child = l.name)
    (hpar : ∀ j ∈ m.joints, ∃ pl ∈ m.links, j.parent = pl.name)
    (hnames : (m.links.map Link.name).Nodup)
    (hdepth : ∀ j ∈ m.joints, ∀ pl ∈ m.links, j.parent = pl.name →
      d j.child = d pl.name + 1)
    (hinit : ∀ l ∈ m.links, l.tree_parent_joint = none) :
    (∀ start ∈ m.links, ∀ fuel, d start.name < fuel →
      m.find_root_walk fuel start = .found r) ∧
    (∀ (l0 : Link) (rest : List Link), m.links = l0 :: rest →
      ∀ fuel, d l0.name < fuel → m.find_root_link fuel = .found r) ∧
    (∀ l ∈ m.links, (∀ j ∈ m.joints, j.child ≠ l.name) → l = r) ∧
    (∀ (fuel : Nat) (m' : Model), m.build_tree fuel = .ok m' →
      ∀ l ∈ m'.links, Link.name l = r.name → l.tree_parent_joint = none) ∧
    (∀ m0 : Model, m0.links = [] → ∀ fuel, m0.find_root_link fuel = .indexError) := by
  rcases m with ⟨n, p0, pw, i, links, joints, subs, rl⟩
  have hsubs : subs = ModelList.nil := hflat
  subst hsubs
  have hwalk : ∀ start ∈ links, ∀ fuel, d start.name < fuel →
      Model.find_root_walk (.mk n p0 pw i links joints .nil rl) fuel start =
        .found r :=
    fun start hst fuel hd =>
      flat_walk_reaches_root n p0 pw i links joints rl r d hr hroot hconn hpar
        hnames hdepth fuel start hst hd
  refine ⟨hwalk, ?_, ?_, ?_, ?_⟩
  · intro l0 rest hls fuel hd
    rw [Model.find_root_link]
    have hls' : Model.links (.mk n p0 pw i links joints .nil rl) = l0 :: rest := hls
    rw [hls']
    exact hwalk l0 (by rw [show links = l0 :: rest from hls']; exact List.mem_cons_self l0 rest) fuel hd
  · intro l hl hnoj
    by_cases hln : l.name = r.name
    · exact List.inj_on_of_nodup_map hnames hl hr hln
    · obtain ⟨j, hj, hjc⟩ := hconn l hl hln
      exact absurd hjc (hnoj j hj)
  · intro fuel m' h
    cases fuel with
    | zero =>
      rw [Model.build_tree] at h
      exact absurd h (by simp)
    | succ f =>
      rw [Model.build_tree] at h
      cases hph : buildTreeJoints (.mk n p0 pw i links joints .nil rl) joints with
      | error e => rw [hph] at h; exact absurd h (by simp)
      | ok pr =>
        rcases pr with ⟨m1, js'⟩
        rw [hph] at h
        have hkeep := buildTreeJoints_flat_keeps_root r.name joints
          (.mk n p0 pw i links joints .nil rl) m1 js' rfl hroot
          (fun l hl _ => hinit l hl) hph
        have h2 : (match buildTreeSubmodels m1.submodels f with
            | Except.error e => Except.error e
            | Except.ok subs' => Except.ok (m1.set_joints_submodels js' subs')) =
            Except.ok m' := h
        cases hbs : buildTreeSubmodels m1.submodels f with
        | error e =>
          rw [hbs] at h2
          exact absurd h2 (by simp)
        | ok subs' =>
          rw [hbs] at h2
          simp only [Except.ok.injEq] at h2
          subst h2
          intro l hl hname
          rw [Model.set_joints_submodels_links] at hl
          exact hkeep.2 l hl hname
  · intro m0 h0 fuel
    rcases m0 with ⟨n0, pp0, pw0, i0, links0, joints0, subs0, rl0⟩
    have hls : links0 = [] := h0
    subst hls
    rfl

/-- Concrete flat document for the C5 witness: `base` with links
`root_link`, `wheel` and joint `axle` from `root_link` to `wheel`. -/
def flatRootLink : Link := .mk "root_link" identity_matrix identity_matrix 50 none []

/-- Link `wheel` of the flat witness document. -/
def flatWheelLink : Link := .mk "wheel" identity_matrix identity_matrix 50 none []

/-- Joint `axle` (parent `root_link`, child `wheel`). -/
def flatAxleJoint : Joint :=
  .mk "axle" identity_matrix identity_matrix 50 "revolute" "root_link" "wheel"
    Axis.init none none

/-- The flat witness model. -/
def flatModel : Model :=
  .mk "base" identity_matrix identity_matrix 50 [flatRootLink, flatWheelLink]
    [flatAxleJoint] .nil none

/-- Depth certificate for the flat witness model's kinematic tree. -/
def flatDepth : String → Nat := fun s => if s == "wheel" then 1 else 0

/-- Witness for the amended C5: the hypotheses hold of the concrete flat
document and the amended conclusion follows by the theorem. -/
theorem c5_amended_root_discovery_witness :
    (flatModel.submodels = ModelList.nil ∧
      flatRootLink ∈ flatModel.links ∧
      (flatModel.links.map Link.name).Nodup) ∧
    ((∀ start ∈ flatModel.links, ∀ fuel, flatDepth start.name < fuel →
        flatModel.find_root_walk fuel start = .found flatRootLink) ∧
      (∀ (l0 : Link) (rest : List Link), flatModel.links = l0 :: rest →
        ∀ fuel, flatDepth l0.name < fuel →
          flatModel.find_root_link fuel = .found flatRootLink) ∧
      (∀ l ∈ flatModel.links, (∀ j ∈ flatModel.joints, j.child ≠ l.name) →
        l = flatRootLink) ∧
      (∀ (fuel : Nat) (m' : Model), flatModel.build_tree fuel = .ok m' →
        ∀ l ∈ m'.links, Link.name l = flatRootLink.name →
          l.tree_parent_joint = none) ∧
      (∀ m0 : Model, m0.links = [] → ∀ fuel,
        m0.find_root_link fuel = .indexError)) := by
  refine ⟨⟨rfl, List.mem_cons_self _ _, by decide⟩, ?_⟩
  refine c5_amended_root_discovery flatModel flatRootLink flatDepth rfl
    (List.mem_cons_self _ _) ?_ ?_ ?_ (by decide) ?_ ?_
  · intro j hj
    have hj2 : j ∈ [flatAxleJoint] := hj
    rw [List.mem_singleton] at hj2
    subst hj2
    decide
  · intro l hl hne
    rcases List.mem_cons.mp hl with rfl | hl2
    · exact absurd rfl hne
    · have hl3 : l ∈ [flatWheelLink] := hl2
      rw [List.mem_singleton] at hl3
      subst hl3
      exact ⟨flatAxleJoint, List.mem_cons_self _ _, rfl⟩
  · intro j hj
    have hj2 : j ∈ [flatAxleJoint] := hj
    rw [List.mem_singleton] at hj2
    subst hj2
    exact ⟨flatRootLink, List.mem_cons_self _ _, rfl⟩
  · intro j hj pl hpl hname
    have hj2 : j ∈ [flatAxleJoint] := hj
    rw [List.mem_singleton] at hj2
    subst hj2
    rcases List.mem_cons.mp hpl with rfl | hpl2
    · decide
    · have hpl3 : pl ∈ [flatWheelLink] := hpl2
      rw [List.mem_singleton] at hpl3
      subst hpl3
      exact absurd hname (by decide)
  · intro l hl
    rcases List.mem_cons.mp hl with rfl | hl2
    · rfl
    · have hl3 : l ∈ [flatWheelLink] := hl2
      rw [List.mem_singleton] at hl3
      subst hl3
      rfl
